import Mathlib

/-!
Verification of the 3D Submarines game core (shape library, vessel,
board, match) as a shallow embedding of the Python source in main.py.
Python sets become Finsets, dicts become association lists, the shared
random source becomes an explicit tape of natural numbers, exceptions
become an Except monad, and the aliasing between the coordinate index
and the piece list is modelled by indexing pieces by position.
-/

namespace Subs3D

/-- A 3D coordinate (x, y, depth), as in the Coordinate alias. -/
abbrev Coordinate := Int × Int × Int

/-- Minimum of a nonempty list of integers, as Python min; 0 on []. -/
def listMin (l : List Int) : Int :=
  match l with
  | [] => 0
  | a :: t => t.foldl min a

/-- Maximum of a nonempty list of integers, as Python max; 0 on []. -/
def listMax (l : List Int) : Int :=
  match l with
  | [] => 0
  | a :: t => t.foldl max a

/-- Shift a list of 2D offsets so the minimum x,y becomes (0,0);
embeds the source function of the same name. -/
def _normalize (offsets : List (Int × Int)) : Finset (Int × Int) :=
  let min_x := listMin (offsets.map Prod.fst)
  let min_y := listMin (offsets.map Prod.snd)
  (offsets.map (fun p => (p.1 - min_x, p.2 - min_y))).toFinset

/-- One 90-degree rotation step about the origin, (x,y) to (y,-x),
as in the loop body of the rotations function. -/
def rotate90 (l : List (Int × Int)) : List (Int × Int) :=
  l.map (fun p => (p.2, -p.1))

/-- Loop of the rotations function: n remaining iterations, the current
offset list, and the configurations accumulated so far. -/
def rotationsAux : Nat → List (Int × Int) → List (Finset (Int × Int)) →
    List (Finset (Int × Int))
  | 0, _, configs => configs
  | n + 1, current, configs =>
    let norm := _normalize current
    rotationsAux n (rotate90 current)
      (if norm ∈ configs then configs else configs ++ [norm])

/-- Generate all unique 90-degree rotations of a base 2D shape;
embeds the source function of the same name. -/
def _get_rotations (base : List (Int × Int)) : List (Finset (Int × Int)) :=
  rotationsAux 4 base []

/-- Outcome of a firing action on the board. -/
inductive Signal
  | MISS
  | HIT
  | KILL
deriving DecidableEq

/-- The vessel types of the game. -/
inductive PieceType
  | SUBMARINE
  | DESTROYER
  | JET
  | GENERAL
deriving DecidableEq

/-- Enum value of a piece type, as assigned by auto() starting at 1. -/
def PieceType.value : PieceType → Int
  | .SUBMARINE => 1
  | .DESTROYER => 2
  | .JET => 3
  | .GENERAL => 4

/-- The piece-shape table _SHAPES_2D. -/
def _SHAPES_2D (t : PieceType) : List (Finset (Int × Int)) :=
  match t with
  | .SUBMARINE => _get_rotations [(0,0), (1,0), (2,0)]
  | .DESTROYER => _get_rotations [(0,0), (1,0), (2,0), (3,0)]
  | .JET => _get_rotations [(-1,0), (0,0), (1,0), (0,-1), (0,1), (0,2)]
  | .GENERAL => [_normalize [(0,0)]]

/-- A single vessel: its type, occupied cells and hit cells. -/
structure Piece where
  piece_type : PieceType
  coords : Finset Coordinate
  hits : Finset Coordinate
deriving DecidableEq

/-- Process an incoming shot at coord, returning the signal together
with the updated piece (the Python method mutates in place). -/
def Piece.register_hit (p : Piece) (coord : Coordinate) : Signal × Piece :=
  if coord ∉ p.coords then (.MISS, p)
  else
    let p' : Piece := { p with hits := insert coord p.hits }
    if p.piece_type = .SUBMARINE ∨ p.piece_type = .JET ∨ p.piece_type = .GENERAL then
      (.KILL, p')
    else if p'.hits = p'.coords then (.KILL, p')
    else (.HIT, p')

/-- Association-list lookup modelling Python dict get on the coordinate
index; values are positions into the piece list, which models the
aliasing of Piece objects between the dict and the list. -/
def dictGet : List (Coordinate × Nat) → Coordinate → Option Nat
  | [], _ => none
  | (k, v) :: t, c => if k = c then some v else dictGet t c

/-- The 3D board: depth layers of rows x cols, a coordinate index and
the list of placed pieces. -/
structure Board3D where
  depth : Int
  rows : Int
  cols : Int
  occupied : List (Coordinate × Nat)
  pieces : List Piece
deriving DecidableEq

/-- A board as built by the Board3D constructor: empty. -/
def Board3D.init (depth rows cols : Int) : Board3D :=
  ⟨depth, rows, cols, [], []⟩

/-- Resolve incoming fire at coord: look the coordinate up in the index
and delegate to the occupying piece, mutating it in place. -/
def Board3D.receive_fire (b : Board3D) (coord : Coordinate) : Signal × Board3D :=
  match dictGet b.occupied coord with
  | none => (.MISS, b)
  | some i =>
    match b.pieces[i]? with
    | none => (.MISS, b)
    | some p =>
      let sp := p.register_hit coord
      (sp.1, { b with pieces := b.pieces.set i sp.2 })

/-- Check whether every piece other than the General is sunk. -/
def Board3D.all_non_general_sunk (b : Board3D) : Bool :=
  b.pieces.all (fun p => decide (p.piece_type = .GENERAL) || decide (p.hits = p.coords))

/-- Match state: the two boards, the two shot-history sets, and the
index of the current player. -/
structure Game where
  board0 : Board3D
  board1 : Board3D
  shots0 : Finset Coordinate
  shots1 : Finset Coordinate
  current : Nat
deriving DecidableEq

/-- Indexing into the two-element board list of the Game. -/
def Game.getBoard (g : Game) (i : Nat) : Board3D :=
  if i = 0 then g.board0 else g.board1

/-- Indexing into the two-element shot-history list of the Game. -/
def Game.getShots (g : Game) (i : Nat) : Finset Coordinate :=
  if i = 0 then g.shots0 else g.shots1

/-- Replace one of the two boards. -/
def Game.setBoard (g : Game) (i : Nat) (b : Board3D) : Game :=
  if i = 0 then { g with board0 := b } else { g with board1 := b }

/-- Replace one of the two shot-history sets. -/
def Game.setShots (g : Game) (i : Nat) (s : Finset Coordinate) : Game :=
  if i = 0 then { g with shots0 := s } else { g with shots1 := s }

/-- The captured-piece check of the game loop: a coordinate is looked
up on the target board before firing, and the win check asks whether
that piece is the General. -/
def capturedIsGeneral (tb : Board3D) (coord : Coordinate) : Bool :=
  match dictGet tb.occupied coord with
  | none => false
  | some i =>
    match tb.pieces[i]? with
    | none => false
    | some p => decide (p.piece_type = .GENERAL)

/-- Result of one iteration of the turn loop for a coordinate input. -/
inductive Outcome
  | reprompt
  | nextPrompt
  | ended (winner : Nat)
deriving DecidableEq

/-- One turn-loop iteration of Game.start for a parsed coordinate:
duplicate shots re-prompt without mutation; otherwise the shot is
recorded, the opponent board resolves it, and on MISS the turn flips
while on KILL of the General or completion of all non-General
vessels the match ends with the firing player as winner. -/
def fireStep (g : Game) (coord : Coordinate) : Outcome × Game :=
  if coord ∈ g.getShots g.current then (.reprompt, g)
  else
    let g1 := g.setShots g.current (insert coord (g.getShots g.current))
    let opp := 1 - g.current
    let tb := g1.getBoard opp
    let isGen := capturedIsGeneral tb coord
    let sb := tb.receive_fire coord
    let g2 := g1.setBoard opp sb.2
    if sb.1 = .MISS then (.nextPrompt, { g2 with current := 1 - g2.current })
    else if isGen then (.ended g2.current, g2)
    else if sb.2.all_non_general_sunk then (.ended g2.current, g2)
    else (.nextPrompt, g2)

/-- A total order on 2D offsets, used only to serialise a Python set
into a list in some definite order. -/
def ple (a b : Int × Int) : Prop :=
  a.1 < b.1 ∨ (a.1 = b.1 ∧ a.2 ≤ b.2)

instance : DecidableRel ple := fun a b =>
  inferInstanceAs (Decidable (_ ∨ _))

instance : IsTrans (Int × Int) ple :=
  ⟨by intro a b c hab hbc; unfold ple at *; omega⟩

instance : IsAntisymm (Int × Int) ple :=
  ⟨by
    intro a b hab hba
    unfold ple at *
    have h1 : a.1 = b.1 := by omega
    have h2 : a.2 = b.2 := by omega
    exact Prod.ext h1 h2⟩

instance : IsTotal (Int × Int) ple :=
  ⟨by intro a b; unfold ple; omega⟩

/-- A total order on 3D coordinates, used only to serialise a Python
set into a list in some definite order. -/
def cle (a b : Coordinate) : Prop :=
  a.1 < b.1 ∨ (a.1 = b.1 ∧ (a.2.1 < b.2.1 ∨ (a.2.1 = b.2.1 ∧ a.2.2 ≤ b.2.2)))

instance : DecidableRel cle := fun a b =>
  inferInstanceAs (Decidable (_ ∨ _))

instance : IsTrans Coordinate cle :=
  ⟨by intro a b c hab hbc; unfold cle at *; omega⟩

instance : IsAntisymm Coordinate cle :=
  ⟨by
    intro a b hab hba
    unfold cle at *
    have h1 : a.1 = b.1 := by omega
    have h2 : a.2.1 = b.2.1 := by omega
    have h3 : a.2.2 = b.2.2 := by omega
    exact Prod.ext h1 (Prod.ext h2 h3)⟩

instance : IsTotal Coordinate cle :=
  ⟨by intro a b; unfold cle; omega⟩

/-- Serialise a set of offsets into a list (Python set iteration);
implemented by insertion sort so that the kernel can evaluate it. -/
def offListOf (s : Finset (Int × Int)) : List (Int × Int) :=
  Quot.liftOn s.val (List.insertionSort ple) fun l1 l2 h =>
    List.eq_of_perm_of_sorted
      ((List.perm_insertionSort ple l1).trans (h.trans (List.perm_insertionSort ple l2).symm))
      (List.sorted_insertionSort ple l1) (List.sorted_insertionSort ple l2)

/-- Serialise a set of coordinates into a list (Python set iteration);
implemented by insertion sort so that the kernel can evaluate it. -/
def coordListOf (s : Finset Coordinate) : List Coordinate :=
  Quot.liftOn s.val (List.insertionSort cle) fun l1 l2 h =>
    List.eq_of_perm_of_sorted
      ((List.perm_insertionSort cle l1).trans (h.trans (List.perm_insertionSort cle l2).symm))
      (List.sorted_insertionSort cle l1) (List.sorted_insertionSort cle l2)

theorem mem_offListOf (s : Finset (Int × Int)) (a : Int × Int) :
    a ∈ offListOf s ↔ a ∈ s := by
  rcases s with ⟨m, hm⟩
  induction m using Quot.inductionOn
  simp [offListOf, Finset.mem_mk, (List.perm_insertionSort ple _).mem_iff]

theorem mem_coordListOf (s : Finset Coordinate) (a : Coordinate) :
    a ∈ coordListOf s ↔ a ∈ s := by
  rcases s with ⟨m, hm⟩
  induction m using Quot.inductionOn
  simp [coordListOf, Finset.mem_mk, (List.perm_insertionSort cle _).mem_iff]

/-- Maximum x over a set of offsets, as Python max over the set. -/
def finMaxFst (s : Finset (Int × Int)) : Int :=
  WithBot.unbot' 0 (s.image Prod.fst).max

/-- Maximum y over a set of offsets, as Python max over the set. -/
def finMaxSnd (s : Finset (Int × Int)) : Int :=
  WithBot.unbot' 0 (s.image Prod.snd).max

/-- Minimum x over a set of offsets, as Python min over the set. -/
def finMinFst (s : Finset (Int × Int)) : Int :=
  WithTop.untop' 0 (s.image Prod.fst).min

/-- Minimum y over a set of offsets, as Python min over the set. -/
def finMinSnd (s : Finset (Int × Int)) : Int :=
  WithTop.untop' 0 (s.image Prod.snd).min

/-- The random draws one placement attempt may consume: the shape
choice, the layer draw used only by the General, and the two anchor
draws. Each models one call into the shared random source. -/
structure Rand where
  shapeR : Nat
  zR : Nat
  xR : Nat
  yR : Nat

/-- Errors the configuration and placement code can raise. -/
inductive PlaceErr
  | invalidConfiguration
  | capacityExceeded
  | placementExhausted
  | rangeError
  | choiceError
deriving DecidableEq, Repr

/-- Model of random.randrange n driven by one tape value: an error on
an empty range, otherwise an arbitrary value in [0, n) selected by
the tape (any such value is reachable). -/
def randrange (n : Int) (r : Nat) : Except PlaceErr Int :=
  if n ≤ 0 then .error .rangeError else .ok ((r : Int) % n)

/-- Commit a successful placement: create the piece, register every
coordinate in the index, and append to the piece list. -/
def commitPiece (b : Board3D) (ptype : PieceType) (coords : Finset Coordinate) :
    Board3D :=
  { b with
    occupied :=
      (coordListOf coords).foldl (fun acc c => (c, b.pieces.length) :: acc) b.occupied
    pieces := b.pieces ++ [⟨ptype, coords, ∅⟩] }

/-- One iteration of the retry loop of the single-vessel placement
routine: draw a shape variant, a depth layer (fixed by type except for
the General), and an anchor; return the committed board on success,
none on a collision, or the raised error. -/
def attempt (b : Board3D) (ptype : PieceType) (r : Rand) :
    Except PlaceErr (Option Board3D) :=
  let shapes := _SHAPES_2D ptype
  match shapes[r.shapeR % shapes.length]? with
  | none => .error .choiceError
  | some shape =>
    let max_dx := finMaxFst shape
    let max_dy := finMaxSnd shape
    match (if ptype = .GENERAL then randrange b.depth r.zR else .ok (ptype.value - 1)) with
    | .error e => .error e
    | .ok z =>
      match randrange (b.cols - max_dx) r.xR with
      | .error e => .error e
      | .ok x0 =>
        match randrange (b.rows - max_dy) r.yR with
        | .error e => .error e
        | .ok y0 =>
          let coords := shape.image (fun q => (x0 + q.1, y0 + q.2, z))
          if ∃ c ∈ coords, (dictGet b.occupied c).isSome then .ok none
          else .ok (some (commitPiece b ptype coords))

/-- The bounded retry loop of the single-vessel placement routine,
with the remaining attempt count explicit. -/
def placeAux (b : Board3D) (ptype : PieceType) :
    Nat → (Nat → Rand) → Except PlaceErr (Board3D × (Nat → Rand))
  | 0, _ => .error .placementExhausted
  | n + 1, tape =>
    match attempt b ptype (tape 0) with
    | .error e => .error e
    | .ok (some b') => .ok (b', fun i => tape (i + 1))
    | .ok none => placeAux b ptype n (fun i => tape (i + 1))

/-- Attempt up to 1000 times to place one piece without overlap,
threading the random tape; embeds the source routine of this name. -/
def _place_random (b : Board3D) (ptype : PieceType) (tape : Nat → Rand) :
    Except PlaceErr (Board3D × (Nat → Rand)) :=
  placeAux b ptype 1000 tape

/-- The per-layer packing bound used by the capacity pre-check: the
base rotation's bounding box laid out horizontally versus vertically,
taking the larger count. -/
def maxCount (rows cols : Int) (ptype : PieceType) : Int :=
  let base_shape := (_SHAPES_2D ptype).headD ∅
  let width := finMaxFst base_shape - finMinFst base_shape + 1
  let height := finMaxSnd base_shape - finMinSnd base_shape + 1
  let cap_horiz := (Int.fdiv rows height) * (Int.fdiv cols width)
  let cap_vert := (Int.fdiv rows width) * (Int.fdiv cols height)
  max cap_horiz cap_vert

/-- The vessel types in enum declaration order, which is the iteration
order of the configuration dictionary built by the driver. -/
def pieceTypes : List PieceType := [.SUBMARINE, .DESTROYER, .JET, .GENERAL]

/-- The validation loop of place_all: true when some non-General type
requests more copies than its packing bound. -/
def capacityViolation (rows cols : Int) (counts : PieceType → Nat) :
    List PieceType → Bool
  | [] => false
  | t :: ts =>
    if t = .GENERAL then capacityViolation rows cols counts ts
    else if (counts t : Int) > maxCount rows cols t then true
    else capacityViolation rows cols counts ts

/-- Place n copies of one type, threading board and tape. -/
def placeN (ptype : PieceType) :
    Board3D → Nat → (Nat → Rand) → Except PlaceErr (Board3D × (Nat → Rand))
  | b, 0, tape => .ok (b, tape)
  | b, n + 1, tape =>
    match _place_random b ptype tape with
    | .error e => .error e
    | .ok (b', tape') => placeN ptype b' n tape'

/-- The placement loop of place_all over the requested types. -/
def placeLoop (counts : PieceType → Nat) :
    Board3D → List PieceType → (Nat → Rand) → Except PlaceErr (Board3D × (Nat → Rand))
  | b, [], tape => .ok (b, tape)
  | b, t :: ts, tape =>
    match placeN t b (counts t) tape with
    | .error e => .error e
    | .ok (b', tape') => placeLoop counts b' ts tape'

/-- Randomly place all vessels according to counts: require exactly one
General, run the capacity pre-check for every other type, and only then
place every requested instance. -/
def place_all (b : Board3D) (counts : PieceType → Nat) (tape : Nat → Rand) :
    Except PlaceErr Board3D :=
  if counts .GENERAL ≠ 1 then .error .invalidConfiguration
  else if capacityViolation b.rows b.cols counts pieceTypes then .error .capacityExceeded
  else (placeLoop counts b pieceTypes tape).map Prod.fst

/-- Fire a whole list of coordinates at a board in order, keeping the
final state; used to speak about shots interleaved between two fires. -/
def fireMany (b : Board3D) : List Coordinate → Board3D
  | [] => b
  | d :: ds => fireMany (b.receive_fire d).2 ds

/-- The configuration used by the concrete witnesses: one Destroyer
and one General. -/
def countsDG : PieceType → Nat
  | .DESTROYER => 1
  | .GENERAL => 1
  | _ => 0

/-- The all-zero random tape. -/
def tape0 : Nat → Rand := fun _ => ⟨0, 0, 0, 0⟩

/-! ### Basic lemmas about the embedded operations -/

theorem list_set_self {α : Type _} (l : List α) (i : Nat) (a : α)
    (h : l[i]? = some a) : l.set i a = l := by
  induction l generalizing i with
  | nil => simp at h
  | cons x t ih =>
    cases i with
    | zero => simp_all
    | succ j => simp_all [List.set]

theorem register_hit_miss (p : Piece) (c : Coordinate) (hc : c ∉ p.coords) :
    p.register_hit c = (.MISS, p) := by
  simp [Piece.register_hit, hc]

theorem register_hit_mem (p : Piece) (c : Coordinate) (hc : c ∈ p.coords) :
    (p.register_hit c).2 = { p with hits := insert c p.hits } ∧
    (p.register_hit c).1 =
      (if p.piece_type = .SUBMARINE ∨ p.piece_type = .JET ∨ p.piece_type = .GENERAL then
        .KILL
       else if insert c p.hits = p.coords then .KILL else .HIT) := by
  unfold Piece.register_hit
  simp only [hc, not_true_eq_false, if_false, ite_not]
  constructor
  · split <;> [skip; split] <;> rfl
  · split <;> [skip; split] <;> simp_all

theorem register_hit_ne_miss (p : Piece) (c : Coordinate) (hc : c ∈ p.coords) :
    (p.register_hit c).1 ≠ .MISS := by
  obtain ⟨-, h2⟩ := register_hit_mem p c hc
  rw [h2]
  split <;> [skip; split] <;> simp

theorem register_hit_coords (p : Piece) (c : Coordinate) :
    (p.register_hit c).2.coords = p.coords := by
  by_cases hc : c ∈ p.coords
  · rw [(register_hit_mem p c hc).1]
  · rw [register_hit_miss p c hc]

theorem register_hit_type (p : Piece) (c : Coordinate) :
    (p.register_hit c).2.piece_type = p.piece_type := by
  by_cases hc : c ∈ p.coords
  · rw [(register_hit_mem p c hc).1]
  · rw [register_hit_miss p c hc]

theorem register_hit_hits (p : Piece) (c : Coordinate) :
    (p.register_hit c).2.hits = p.hits ∨ (p.register_hit c).2.hits = insert c p.hits := by
  by_cases hc : c ∈ p.coords
  · rw [(register_hit_mem p c hc).1]
    exact Or.inr rfl
  · rw [register_hit_miss p c hc]
    exact Or.inl rfl

theorem receive_fire_not_occ (b : Board3D) (c : Coordinate)
    (h : dictGet b.occupied c = none) : b.receive_fire c = (.MISS, b) := by
  simp only [Board3D.receive_fire, h]

theorem receive_fire_dangling (b : Board3D) (c : Coordinate) (i : Nat)
    (h : dictGet b.occupied c = some i) (h2 : b.pieces[i]? = none) :
    b.receive_fire c = (.MISS, b) := by
  simp only [Board3D.receive_fire, h, h2]

theorem receive_fire_occ (b : Board3D) (c : Coordinate) (i : Nat) (p : Piece)
    (h : dictGet b.occupied c = some i) (h2 : b.pieces[i]? = some p) :
    b.receive_fire c =
      ((p.register_hit c).1, { b with pieces := b.pieces.set i (p.register_hit c).2 }) := by
  simp only [Board3D.receive_fire, h, h2]

theorem receive_fire_occupied (b : Board3D) (c : Coordinate) :
    (b.receive_fire c).2.occupied = b.occupied := by
  rcases hd : dictGet b.occupied c with - | i
  · rw [receive_fire_not_occ b c hd]
  rcases hp : b.pieces[i]? with - | p
  · rw [receive_fire_dangling b c i hd hp]
  rw [receive_fire_occ b c i p hd hp]

theorem receive_fire_dims (b : Board3D) (c : Coordinate) :
    (b.receive_fire c).2.depth = b.depth ∧ (b.receive_fire c).2.rows = b.rows ∧
    (b.receive_fire c).2.cols = b.cols := by
  rcases hd : dictGet b.occupied c with - | i
  · rw [receive_fire_not_occ b c hd]
    exact ⟨rfl, rfl, rfl⟩
  rcases hp : b.pieces[i]? with - | p
  · rw [receive_fire_dangling b c i hd hp]
    exact ⟨rfl, rfl, rfl⟩
  rw [receive_fire_occ b c i p hd hp]
  exact ⟨rfl, rfl, rfl⟩

theorem receive_fire_pieces_get (b : Board3D) (c : Coordinate) (j : Nat) :
    (b.receive_fire c).2.pieces[j]? = b.pieces[j]? ∨
    ∃ p, b.pieces[j]? = some p ∧ (b.receive_fire c).2.pieces[j]? = some (p.register_hit c).2 := by
  rcases hd : dictGet b.occupied c with - | i
  · rw [receive_fire_not_occ b c hd]
    exact Or.inl rfl
  rcases hp : b.pieces[i]? with - | p
  · rw [receive_fire_dangling b c i hd hp]
    exact Or.inl rfl
  rw [receive_fire_occ b c i p hd hp]
  by_cases hij : i = j
  · subst hij
    refine Or.inr ⟨p, hp, ?_⟩
    simp only
    rw [List.getElem?_set_eq (List.getElem?_eq_some_iff.mp hp).1]
  · exact Or.inl (List.getElem?_set_ne hij)

/-- The coordinate c is already resolved on board b: it is unoccupied,
or its registered hit has already been recorded. Re-firing such a
coordinate cannot change any state. -/
def Resolved (b : Board3D) (c : Coordinate) : Prop :=
  match dictGet b.occupied c with
  | none => True
  | some i =>
    match b.pieces[i]? with
    | none => True
    | some p => c ∉ p.coords ∨ c ∈ p.hits

theorem resolved_iff (b : Board3D) (c : Coordinate) :
    Resolved b c ↔ ∀ i p, dictGet b.occupied c = some i → b.pieces[i]? = some p →
      (c ∉ p.coords ∨ c ∈ p.hits) := by
  unfold Resolved
  rcases hd : dictGet b.occupied c with - | i
  · simp
  rcases hp : b.pieces[i]? with - | p
  · simp only [hp, Option.some.injEq]
    constructor
    · intro _ j q hj hq
      subst hj
      rw [hp] at hq
      cases hq
    · intro _
      trivial
  · simp only [hp, Option.some.injEq]
    constructor
    · intro hres j q hj hq
      subst hj
      rw [hp] at hq
      injection hq with hq2
      subst hq2
      exact hres
    · intro hall
      exact hall i p rfl hp

theorem register_hit_resolved_snd (p : Piece) (c : Coordinate)
    (h : c ∉ p.coords ∨ c ∈ p.hits) : (p.register_hit c).2 = p := by
  by_cases hc : c ∈ p.coords
  · rcases h with h | h
    · exact absurd hc h
    · rw [(register_hit_mem p c hc).1, Finset.insert_eq_self.mpr h]
  · rw [register_hit_miss p c hc]

theorem receive_fire_of_resolved (b : Board3D) (c : Coordinate)
    (h : Resolved b c) : (b.receive_fire c).2 = b := by
  rcases hd : dictGet b.occupied c with - | i
  · rw [receive_fire_not_occ b c hd]
  rcases hp : b.pieces[i]? with - | p
  · rw [receive_fire_dangling b c i hd hp]
  rw [receive_fire_occ b c i p hd hp]
  rw [register_hit_resolved_snd p c ((resolved_iff b c).mp h i p hd hp)]
  show ({ b with pieces := b.pieces.set i p } : Board3D) = b
  rw [list_set_self _ _ _ hp]

theorem resolved_after (b : Board3D) (c : Coordinate) :
    Resolved (b.receive_fire c).2 c := by
  rw [resolved_iff]
  intro j q hdj hpj
  rw [receive_fire_occupied] at hdj
  rcases hp0 : dictGet b.occupied c with - | i
  · rw [hp0] at hdj
    cases hdj
  rw [hp0] at hdj
  injection hdj with hij
  subst hij
  rcases hp : b.pieces[i]? with - | p
  · rw [receive_fire_dangling b c i hp0 hp] at hpj
    rw [hp] at hpj
    cases hpj
  · rw [receive_fire_occ b c i p hp0 hp] at hpj
    simp only at hpj
    rw [List.getElem?_set_eq (List.getElem?_eq_some_iff.mp hp).1] at hpj
    injection hpj with hq
    subst hq
    by_cases hc : c ∈ p.coords
    · right
      rw [(register_hit_mem p c hc).1]
      exact Finset.mem_insert_self c p.hits
    · left
      rw [register_hit_coords]
      exact hc

theorem resolved_mono (b : Board3D) (c d : Coordinate)
    (h : Resolved b c) : Resolved (b.receive_fire d).2 c := by
  rw [resolved_iff] at h ⊢
  intro j q hdj hpj
  rw [receive_fire_occupied] at hdj
  rcases receive_fire_pieces_get b d j with hs | ⟨p, hp, hset⟩
  · rw [hs] at hpj
    exact h j q hdj hpj
  · rw [hset] at hpj
    injection hpj with hq
    subst hq
    rcases h j p hdj hp with hnc | hh
    · left
      rw [register_hit_coords]
      exact hnc
    · right
      rcases register_hit_hits p d with h2 | h2
      · rw [h2]
        exact hh
      · rw [h2]
        exact Finset.mem_insert_of_mem hh

theorem resolved_fireMany (b : Board3D) (c : Coordinate) (ds : List Coordinate)
    (h : Resolved b c) : Resolved (fireMany b ds) c := by
  induction ds generalizing b with
  | nil => exact h
  | cons d ds ih => exact ih _ (resolved_mono b c d h)

theorem register_hit_repeat (p : Piece) (c : Coordinate) :
    ((p.register_hit c).2.register_hit c).1 = (p.register_hit c).1 := by
  by_cases hc : c ∈ p.coords
  · obtain ⟨h2, h1⟩ := register_hit_mem p c hc
    have hc2 : c ∈ (p.register_hit c).2.coords := by
      rw [register_hit_coords]
      exact hc
    obtain ⟨-, h1'⟩ := register_hit_mem (p.register_hit c).2 c hc2
    rw [h1', h1, h2]
    simp [Finset.insert_idem]
  · rw [register_hit_miss p c hc, register_hit_miss p c hc]

theorem receive_fire_repeat_sig (b : Board3D) (c : Coordinate) :
    ((b.receive_fire c).2.receive_fire c).1 = (b.receive_fire c).1 := by
  rcases hd : dictGet b.occupied c with - | i
  · rw [receive_fire_not_occ b c hd, receive_fire_not_occ b c hd]
  rcases hp : b.pieces[i]? with - | p
  · rw [receive_fire_dangling b c i hd hp, receive_fire_dangling b c i hd hp]
  have hb' := receive_fire_occ b c i p hd hp
  have hd' : dictGet (b.receive_fire c).2.occupied c = some i := by
    rw [receive_fire_occupied]
    exact hd
  have hp' : (b.receive_fire c).2.pieces[i]? = some (p.register_hit c).2 := by
    rw [hb']
    exact List.getElem?_set_eq (List.getElem?_eq_some_iff.mp hp).1
  rw [receive_fire_occ _ c i _ hd' hp', hb']
  exact register_hit_repeat p c

/-- Boards used by the counterexample runs: a 5 by 5 by 3 board built
by place_all holding one Destroyer on layer 1 and the General, then the
states after firing the destroyer cells one by one. -/
def c8b0 : Board3D :=
  match place_all (Board3D.init 3 5 5) countsDG tape0 with
  | .ok b => b
  | .error _ => Board3D.init 0 0 0

/-- State after firing the first destroyer cell. -/
def c8b1 : Board3D := (c8b0.receive_fire (0, 0, 1)).2

/-- State after firing the second destroyer cell. -/
def c8b2 : Board3D := (c8b1.receive_fire (1, 0, 1)).2

/-- State after firing the third destroyer cell. -/
def c8b3 : Board3D := (c8b2.receive_fire (2, 0, 1)).2

/-- State after firing the last destroyer cell. -/
def c8b4 : Board3D := (c8b3.receive_fire (3, 0, 1)).2

/-- A concrete destroyer piece with one recorded hit, used to witness
the register-hit claim. -/
def pW : Piece := ⟨.DESTROYER, {(0,0,0), (1,0,0)}, {(1,0,0)}⟩

/-- C3: registerHit returns MISS and mutates nothing off the occupied
cells; on an occupied cell it adds the coordinate to the hit set (which
grows and stays inside the occupied set), returns KILL unconditionally
for the three single-hit types, and for the Destroyer returns KILL
exactly when the hit set now equals the occupied set, HIT otherwise. -/
theorem claim_C3_register_hit (p : Piece) (c : Coordinate) (hsub : p.hits ⊆ p.coords) :
    (c ∉ p.coords → p.register_hit c = (.MISS, p))
    ∧ (c ∈ p.coords →
        (p.register_hit c).2.hits = insert c p.hits
        ∧ p.hits ⊆ (p.register_hit c).2.hits
        ∧ (p.register_hit c).2.hits ⊆ p.coords
        ∧ ((p.piece_type = .SUBMARINE ∨ p.piece_type = .JET ∨ p.piece_type = .GENERAL) →
            (p.register_hit c).1 = .KILL)
        ∧ (p.piece_type = .DESTROYER →
            (p.register_hit c).1 =
              if insert c p.hits = p.coords then Signal.KILL else Signal.HIT)) := by
  refine ⟨register_hit_miss p c, fun hc => ?_⟩
  obtain ⟨h2, h1⟩ := register_hit_mem p c hc
  refine ⟨by rw [h2], ?_, ?_, ?_, ?_⟩
  · rw [h2]
    exact fun a ha => Finset.mem_insert_of_mem ha
  · rw [h2]
    exact Finset.insert_subset hc hsub
  · intro ht
    rw [h1, if_pos ht]
  · intro ht
    rw [h1]
    simp [ht]

/-- Witness for C3 at a concrete destroyer: hitting its last intact
cell returns KILL. -/
theorem claim_C3_witness :
    (pW.register_hit (0,0,0)).1 =
      if insert ((0,0,0) : Coordinate) pW.hits = pW.coords then Signal.KILL else Signal.HIT :=
  (((claim_C3_register_hit pW (0,0,0) (by decide)).2 (by decide)).2.2.2.2) (by decide)

/-- C8 (amended): re-firing a coordinate never mutates board state, and
an immediately repeated receiveFire returns the same signal; but after
other coordinates have been fired in between the signal may differ (see
the counterexample), so only the state part survives interleaving. -/
theorem claim_C8_refire (b : Board3D) (c : Coordinate) (ds : List Coordinate) :
    (b.receive_fire c).2.receive_fire c = ((b.receive_fire c).1, (b.receive_fire c).2)
    ∧ ((fireMany (b.receive_fire c).2 ds).receive_fire c).2 = fireMany (b.receive_fire c).2 ds := by
  constructor
  · have hsnd : ((b.receive_fire c).2.receive_fire c).2 = (b.receive_fire c).2 :=
      receive_fire_of_resolved _ c (resolved_after b c)
    have hfst := receive_fire_repeat_sig b c
    exact Prod.ext hfst hsnd
  · exact receive_fire_of_resolved _ c
      (resolved_fireMany _ c ds (resolved_after b c))

/-- Counterexample to C8 as stated: on a board reachable by place_all,
the first fire at the destroyer cell (0,0,1) returns HIT, but re-firing
the same cell after the other destroyer cells have been hit returns
KILL, a different signal. -/
theorem claim_C8_counterexample :
    place_all (Board3D.init 3 5 5) countsDG tape0 = .ok c8b0
    ∧ (c8b0.receive_fire (0, 0, 1)).1 = .HIT
    ∧ c8b4 = fireMany (c8b0.receive_fire (0, 0, 1)).2 [(1,0,1), (2,0,1), (3,0,1)]
    ∧ (c8b4.receive_fire (0, 0, 1)).1 = .KILL := by
  refine ⟨rfl, by decide, rfl, by decide⟩

theorem getBoard_setShots (g : Game) (j : Nat) (s : Finset Coordinate) (i : Nat) :
    (g.setShots j s).getBoard i = g.getBoard i := by
  unfold Game.setShots Game.getBoard
  by_cases hj : j = 0 <;> simp [hj]

theorem getShots_setBoard (g : Game) (j : Nat) (b : Board3D) (i : Nat) :
    (g.setBoard j b).getShots i = g.getShots i := by
  unfold Game.setBoard Game.getShots
  by_cases hj : j = 0 <;> simp [hj]

theorem getShots_setShots_self (g : Game) (j : Nat) (s : Finset Coordinate) :
    (g.setShots j s).getShots j = s := by
  unfold Game.setShots Game.getShots
  by_cases hj : j = 0 <;> simp [hj]

theorem getBoard_setBoard_self (g : Game) (j : Nat) (b : Board3D) :
    (g.setBoard j b).getBoard j = b := by
  unfold Game.setBoard Game.getBoard
  by_cases hj : j = 0 <;> simp [hj]

theorem current_setShots (g : Game) (j : Nat) (s : Finset Coordinate) :
    (g.setShots j s).current = g.current := by
  unfold Game.setShots
  by_cases hj : j = 0 <;> simp [hj]

theorem current_setBoard (g : Game) (j : Nat) (b : Board3D) :
    (g.setBoard j b).current = g.current := by
  unfold Game.setBoard
  by_cases hj : j = 0 <;> simp [hj]

theorem getShots_currentUpdate (g : Game) (n : Nat) (i : Nat) :
    ({ g with current := n } : Game).getShots i = g.getShots i := rfl

theorem getBoard_currentUpdate (g : Game) (n : Nat) (i : Nat) :
    ({ g with current := n } : Game).getBoard i = g.getBoard i := rfl

theorem fireStep_fresh (g : Game) (coord : Coordinate)
    (h : coord ∉ g.getShots g.current) :
    fireStep g coord =
      (let g1 := g.setShots g.current (insert coord (g.getShots g.current))
       let sb := (g.getBoard (1 - g.current)).receive_fire coord
       let g2 := g1.setBoard (1 - g.current) sb.2
       if sb.1 = .MISS then (.nextPrompt, { g2 with current := 1 - g.current })
       else if capturedIsGeneral (g.getBoard (1 - g.current)) coord then
         (.ended g.current, g2)
       else if sb.2.all_non_general_sunk then (.ended g.current, g2)
       else (.nextPrompt, g2)) := by
  unfold fireStep
  rw [if_neg h]
  simp only [getBoard_setShots, current_setBoard, current_setShots]

theorem capturedIsGeneral_occ (b : Board3D) (c : Coordinate) (i : Nat) (p : Piece)
    (hd : dictGet b.occupied c = some i) (hp : b.pieces[i]? = some p) :
    capturedIsGeneral b c = decide (p.piece_type = .GENERAL) := by
  simp only [capturedIsGeneral, hd, hp]

theorem receive_fire_hit_facts (b : Board3D) (c : Coordinate)
    (h : (b.receive_fire c).1 = .HIT) :
    capturedIsGeneral b c = false ∧ (b.receive_fire c).2.all_non_general_sunk = false := by
  rcases hd : dictGet b.occupied c with - | i
  · rw [receive_fire_not_occ b c hd] at h
    cases h
  rcases hp : b.pieces[i]? with - | p
  · rw [receive_fire_dangling b c i hd hp] at h
    cases h
  have hocc := receive_fire_occ b c i p hd hp
  rw [hocc] at h
  simp only at h
  by_cases hc : c ∈ p.coords
  · obtain ⟨h2, h1⟩ := register_hit_mem p c hc
    rw [h1] at h
    have htype : p.piece_type = .DESTROYER := by
      by_contra ht
      cases hpt : p.piece_type <;> simp [hpt] at h <;> exact ht hpt
    have hne : insert c p.hits ≠ p.coords := by
      intro heq
      rw [if_neg (by simp [htype]), if_pos heq] at h
      cases h
    constructor
    · rw [capturedIsGeneral_occ b c i p hd hp]
      simp [htype]
    · rw [hocc]
      simp only [Board3D.all_non_general_sunk]
      rw [Bool.eq_false_iff]
      intro hall
      have hmem : (p.register_hit c).2 ∈ b.pieces.set i (p.register_hit c).2 :=
        List.getElem?_mem (List.getElem?_set_eq (List.getElem?_eq_some_iff.mp hp).1)
      have := List.all_eq_true.mp hall _ hmem
      rw [register_hit_type, register_hit_coords, h2] at this
      simp only at this
      rw [htype] at this
      simp at this
      exact hne this
  · rw [register_hit_miss p c hc] at h
    cases h

/-- C1: on a fresh shot against an occupied cell, destroying the
General ends the match at once with the firing player as winner, and a
shot after which every non-General vessel is sunk likewise ends the
match with the firing player as winner. -/
theorem claim_C1_win_conditions (g : Game) (coord : Coordinate) (i : Nat) (p : Piece)
    (hfresh : coord ∉ g.getShots g.current)
    (hi : dictGet (g.getBoard (1 - g.current)).occupied coord = some i)
    (hp : (g.getBoard (1 - g.current)).pieces[i]? = some p)
    (hc : coord ∈ p.coords) :
    (p.piece_type = .GENERAL → (fireStep g coord).1 = .ended g.current)
    ∧ (((g.getBoard (1 - g.current)).receive_fire coord).2.all_non_general_sunk = true →
        (fireStep g coord).1 = .ended g.current) := by
  have hocc := receive_fire_occ (g.getBoard (1 - g.current)) coord i p hi hp
  have hne : ((g.getBoard (1 - g.current)).receive_fire coord).1 ≠ .MISS := by
    rw [hocc]
    exact register_hit_ne_miss p coord hc
  rw [fireStep_fresh g coord hfresh]
  simp only [if_neg hne]
  constructor
  · intro hgen
    rw [capturedIsGeneral_occ _ coord i p hi hp]
    simp [hgen]
  · intro hsunk
    by_cases hg : capturedIsGeneral (g.getBoard (1 - g.current)) coord
    · rw [if_pos hg]
    · rw [if_neg hg, if_pos hsunk]

/-- C2: the full transition rule of the turn loop. A duplicate shot
re-prompts without any state change. A fresh shot is recorded in the
firing player's shot set and resolved on the opponent board; on MISS
the turn passes to the other player, on HIT the same player continues,
and on KILL the match ends with the firing player as winner exactly
when the pre-captured vessel is the General or all non-General vessels
are now sunk, the same player continuing otherwise. -/
theorem fireStep_fresh_snd (g : Game) (coord : Coordinate)
    (h : coord ∉ g.getShots g.current) :
    (fireStep g coord).2 =
      (if ((g.getBoard (1 - g.current)).receive_fire coord).1 = .MISS then
        { (g.setShots g.current (insert coord (g.getShots g.current))).setBoard
            (1 - g.current) ((g.getBoard (1 - g.current)).receive_fire coord).2 with
          current := 1 - g.current }
       else
        (g.setShots g.current (insert coord (g.getShots g.current))).setBoard
          (1 - g.current) ((g.getBoard (1 - g.current)).receive_fire coord).2) := by
  rw [fireStep_fresh g coord h]
  by_cases hm : ((g.getBoard (1 - g.current)).receive_fire coord).1 = .MISS
  · rw [if_pos hm, if_pos hm]
  · rw [if_neg hm, if_neg hm]
    by_cases hg : capturedIsGeneral (g.getBoard (1 - g.current)) coord
    · rw [if_pos hg]
    · rw [if_neg hg]
      by_cases hs : ((g.getBoard (1 - g.current)).receive_fire coord).2.all_non_general_sunk
      · rw [if_pos hs]
      · rw [if_neg hs]

theorem claim_C2_fire_transition (g : Game) (coord : Coordinate) :
    (coord ∈ g.getShots g.current → fireStep g coord = (.reprompt, g))
    ∧ (coord ∉ g.getShots g.current →
        ((fireStep g coord).2.getShots g.current = insert coord (g.getShots g.current))
        ∧ ((fireStep g coord).2.getBoard (1 - g.current) =
            ((g.getBoard (1 - g.current)).receive_fire coord).2)
        ∧ (((g.getBoard (1 - g.current)).receive_fire coord).1 = .MISS →
            (fireStep g coord).1 = .nextPrompt ∧ (fireStep g coord).2.current = 1 - g.current)
        ∧ (((g.getBoard (1 - g.current)).receive_fire coord).1 = .HIT →
            (fireStep g coord).1 = .nextPrompt ∧ (fireStep g coord).2.current = g.current)
        ∧ (((g.getBoard (1 - g.current)).receive_fire coord).1 = .KILL →
            ((capturedIsGeneral (g.getBoard (1 - g.current)) coord = true ∨
                ((g.getBoard (1 - g.current)).receive_fire coord).2.all_non_general_sunk = true →
              (fireStep g coord).1 = .ended g.current)
             ∧ (capturedIsGeneral (g.getBoard (1 - g.current)) coord = false ∧
                ((g.getBoard (1 - g.current)).receive_fire coord).2.all_non_general_sunk = false →
              (fireStep g coord).1 = .nextPrompt ∧
              (fireStep g coord).2.current = g.current)))) := by
  constructor
  · intro hdup
    unfold fireStep
    rw [if_pos hdup]
  · intro hfresh
    have hsnd := fireStep_fresh_snd g coord hfresh
    refine ⟨?_, ?_, ?_, ?_, ?_⟩
    · rw [hsnd]
      by_cases hm : ((g.getBoard (1 - g.current)).receive_fire coord).1 = .MISS <;>
        simp only [hm, if_true, if_false, reduceIte, getShots_currentUpdate,
          getShots_setBoard, getShots_setShots_self]
    · rw [hsnd]
      by_cases hm : ((g.getBoard (1 - g.current)).receive_fire coord).1 = .MISS <;>
        simp only [hm, if_true, if_false, reduceIte, getBoard_currentUpdate,
          getBoard_setBoard_self]
    · intro hmiss
      rw [fireStep_fresh g coord hfresh]
      rw [if_pos hmiss]
      exact ⟨rfl, rfl⟩
    · intro hhit
      obtain ⟨hg, hs⟩ := receive_fire_hit_facts (g.getBoard (1 - g.current)) coord hhit
      rw [fireStep_fresh g coord hfresh]
      rw [if_neg (by rw [hhit]; exact fun h => Signal.noConfusion h)]
      rw [if_neg (by simp [hg]), if_neg (by simp [hs])]
      refine ⟨rfl, ?_⟩
      simp only [current_setBoard, current_setShots]
    · intro hkill
      have hnm : ¬ (((g.getBoard (1 - g.current)).receive_fire coord).1 = .MISS) := by
        rw [hkill]
        exact fun h => Signal.noConfusion h
      rw [fireStep_fresh g coord hfresh]
      rw [if_neg hnm]
      constructor
      · intro hwin
        rcases hwin with hg | hs
        · rw [if_pos hg]
        · by_cases hg2 : capturedIsGeneral (g.getBoard (1 - g.current)) coord
          · rw [if_pos hg2]
          · rw [if_neg hg2, if_pos hs]
      · intro ⟨hg, hs⟩
        rw [if_neg (by simp [hg]), if_neg (by simp [hs])]
        refine ⟨rfl, ?_⟩
        simp only [current_setBoard, current_setShots]

/-- A concrete board holding only the General at the origin, and games
used to witness the two turn-loop claims. -/
def bGen : Board3D := ⟨3, 5, 5, [((0,0,0), 0)], [⟨.GENERAL, {(0,0,0)}, ∅⟩]⟩

/-- A concrete two-player game over that board, player 0 to move. -/
def gW1 : Game := ⟨bGen, bGen, ∅, ∅, 0⟩

/-- Witness for C1: firing at the General on the concrete game ends
the match with player 0 as winner. -/
theorem claim_C1_witness : (fireStep gW1 (0,0,0)).1 = .ended gW1.current :=
  (claim_C1_win_conditions gW1 (0,0,0) 0 ⟨.GENERAL, {(0,0,0)}, ∅⟩
    (by decide) (by decide) (by decide) (by decide)).1 (by decide)

/-- Witness for C2: a fresh miss on the concrete game keeps the
game going and passes the turn to player 1. -/
theorem claim_C2_witness :
    (fireStep gW1 (4,4,2)).1 = .nextPrompt ∧
    (fireStep gW1 (4,4,2)).2.current = 1 - gW1.current :=
  (((claim_C2_fire_transition gW1 (4,4,2)).2 (by decide)).2.2.1) (by decide)

/-! ### Validation of place_all (claim C6) -/

theorem randrange_error_eq (n : Int) (r : Nat) (e : PlaceErr)
    (h : randrange n r = .error e) : e = .rangeError := by
  unfold randrange at h
  split at h
  · injection h with h
    exact h.symm
  · cases h

theorem ite_randrange_error {c : Prop} [Decidable c] (n : Int) (r : Nat) (v : Int)
    (e : PlaceErr) (h : (if c then randrange n r else .ok v) = .error e) :
    e = .rangeError := by
  split at h
  · exact randrange_error_eq n r e h
  · cases h

theorem attempt_error_eq (b : Board3D) (t : PieceType) (r : Rand) (e : PlaceErr)
    (h : attempt b t r = .error e) : e = .rangeError ∨ e = .choiceError := by
  unfold attempt at h
  rcases h0 : (_SHAPES_2D t)[r.shapeR % (_SHAPES_2D t).length]? with - | shape
  · simp only [h0] at h
    injection h with h
    exact Or.inr h.symm
  simp only [h0] at h
  rcases hz : (if t = .GENERAL then randrange b.depth r.zR else .ok (t.value - 1)) with ez | z
  · simp only [hz] at h
    injection h with h
    exact Or.inl (h ▸ ite_randrange_error _ _ _ _ hz)
  simp only [hz] at h
  rcases hx : randrange (b.cols - finMaxFst shape) r.xR with ex | x0
  · simp only [hx] at h
    injection h with h
    exact Or.inl (h ▸ randrange_error_eq _ _ _ hx)
  simp only [hx] at h
  rcases hy : randrange (b.rows - finMaxSnd shape) r.yR with ey | y0
  · simp only [hy] at h
    injection h with h
    exact Or.inl (h ▸ randrange_error_eq _ _ _ hy)
  simp only [hy] at h
  split at h <;> cases h

theorem placeAux_error_eq (b : Board3D) (t : PieceType) (n : Nat) (tape : Nat → Rand)
    (e : PlaceErr) (h : placeAux b t n tape = .error e) :
    e = .placementExhausted ∨ e = .rangeError ∨ e = .choiceError := by
  induction n generalizing tape with
  | zero =>
    unfold placeAux at h
    injection h with h
    exact Or.inl h.symm
  | succ n ih =>
    unfold placeAux at h
    rcases ha : attempt b t (tape 0) with ea | ob
    · simp only [ha] at h
      injection h with h
      exact Or.inr (h ▸ attempt_error_eq b t (tape 0) ea ha)
    simp only [ha] at h
    rcases ob with - | b'
    · exact ih _ h
    · cases h

theorem placeN_error_eq (t : PieceType) (b : Board3D) (n : Nat) (tape : Nat → Rand)
    (e : PlaceErr) (h : placeN t b n tape = .error e) :
    e = .placementExhausted ∨ e = .rangeError ∨ e = .choiceError := by
  induction n generalizing b tape with
  | zero => cases h
  | succ n ih =>
    unfold placeN at h
    rcases hp : _place_random b t tape with ep | pr
    · simp only [hp] at h
      injection h with h
      exact h ▸ placeAux_error_eq b t 1000 tape ep hp
    · simp only [hp] at h
      exact ih _ _ h

theorem placeLoop_error_eq (counts : PieceType → Nat) (b : Board3D)
    (l : List PieceType) (tape : Nat → Rand) (e : PlaceErr)
    (h : placeLoop counts b l tape = .error e) :
    e = .placementExhausted ∨ e = .rangeError ∨ e = .choiceError := by
  induction l generalizing b tape with
  | nil => cases h
  | cons t ts ih =>
    unfold placeLoop at h
    rcases hp : placeN t b (counts t) tape with ep | pr
    · simp only [hp] at h
      injection h with h
      exact h ▸ placeN_error_eq t b (counts t) tape ep hp
    · simp only [hp] at h
      exact ih _ _ h

theorem mem_pieceTypes (t : PieceType) : t ∈ pieceTypes := by
  cases t <;> simp [pieceTypes]

theorem capacityViolation_iff (rows cols : Int) (counts : PieceType → Nat)
    (l : List PieceType) :
    capacityViolation rows cols counts l = true ↔
      ∃ t ∈ l, t ≠ PieceType.GENERAL ∧ (counts t : Int) > maxCount rows cols t := by
  induction l with
  | nil => simp [capacityViolation]
  | cons t ts ih =>
    unfold capacityViolation
    by_cases hg : t = .GENERAL
    · rw [if_pos hg, ih]
      constructor
      · rintro ⟨u, hu, h1, h2⟩
        exact ⟨u, List.mem_cons_of_mem t hu, h1, h2⟩
      · rintro ⟨u, hu, h1, h2⟩
        rcases List.mem_cons.mp hu with rfl | hu
        · exact absurd hg h1
        · exact ⟨u, hu, h1, h2⟩
    · rw [if_neg hg]
      by_cases hc : (counts t : Int) > maxCount rows cols t
      · rw [if_pos hc]
        constructor
        · intro _
          exact ⟨t, List.mem_cons_self t ts, hg, hc⟩
        · intro _
          rfl
      · rw [if_neg hc, ih]
        constructor
        · rintro ⟨u, hu, h1, h2⟩
          exact ⟨u, List.mem_cons_of_mem t hu, h1, h2⟩
        · rintro ⟨u, hu, h1, h2⟩
          rcases List.mem_cons.mp hu with rfl | hu
          · exact absurd h2 hc
          · exact ⟨u, hu, h1, h2⟩

/-- The configuration of the capacity example: ten Destroyers and one
General. -/
def counts10 : PieceType → Nat
  | .DESTROYER => 10
  | .GENERAL => 1
  | _ => 0

/-- C6: place_all raises InvalidConfiguration exactly when the General
count differs from one; with the General count right it raises
CapacityExceeded exactly when some other type exceeds the packing bound
of its base bounding box; both validation outcomes are independent of
the random tape, so they occur before any placement is attempted; in
particular ten Destroyers on a 5 by 5 layer always fail this way. -/
theorem claim_C6_validation (b : Board3D) (counts : PieceType → Nat) (tape : Nat → Rand) :
    (place_all b counts tape = .error .invalidConfiguration ↔ counts .GENERAL ≠ 1)
    ∧ (counts .GENERAL = 1 →
        (place_all b counts tape = .error .capacityExceeded ↔
          ∃ t, t ≠ PieceType.GENERAL ∧ (counts t : Int) > maxCount b.rows b.cols t))
    ∧ (∀ tape2 : Nat → Rand,
        place_all (Board3D.init 3 5 5) counts10 tape2 = .error .capacityExceeded) := by
  refine ⟨⟨?_, ?_⟩, ?_, ?_⟩
  · intro h
    by_contra hg
    unfold place_all at h
    rw [if_neg (by simp [hg])] at h
    split at h
    · injection h with h
      cases h
    · rcases hx : placeLoop counts b pieceTypes tape with ex | pr
      · rw [hx] at h
        injection h with h
        rcases placeLoop_error_eq counts b pieceTypes tape ex hx with h2 | h2 | h2 <;>
          rw [h2] at h <;> cases h
      · rw [hx] at h
        cases h
  · intro hg
    unfold place_all
    rw [if_pos hg]
  · intro hg
    constructor
    · intro h
      unfold place_all at h
      rw [if_neg (by simp [hg])] at h
      by_cases hv : capacityViolation b.rows b.cols counts pieceTypes
      · obtain ⟨t, -, h1, h2⟩ := (capacityViolation_iff b.rows b.cols counts pieceTypes).mp hv
        exact ⟨t, h1, h2⟩
      · rw [if_neg hv] at h
        rcases hx : placeLoop counts b pieceTypes tape with ex | pr
        · rw [hx] at h
          injection h with h
          rcases placeLoop_error_eq counts b pieceTypes tape ex hx with h2 | h2 | h2 <;>
            rw [h2] at h <;> cases h
        · rw [hx] at h
          cases h
    · rintro ⟨t, h1, h2⟩
      unfold place_all
      rw [if_neg (by simp [hg])]
      rw [if_pos ((capacityViolation_iff b.rows b.cols counts pieceTypes).mpr
        ⟨t, mem_pieceTypes t, h1, h2⟩)]
  · intro tape2
    unfold place_all
    rw [if_neg (by decide)]
    rw [if_pos (by decide)]

/-- Witness for C6: the ten-Destroyer configuration concretely raises
CapacityExceeded through the validation equivalence. -/
theorem claim_C6_witness :
    place_all (Board3D.init 3 5 5) counts10 tape0 = .error .capacityExceeded :=
  ((claim_C6_validation (Board3D.init 3 5 5) counts10 tape0).2.1 (by decide)).2
    ⟨.DESTROYER, by decide, by decide⟩

/-! ### Placement machinery: characterising a successful attempt -/

/-- The fixed cell count of each vessel type's shape. -/
def typeSize : PieceType → Nat
  | .SUBMARINE => 3
  | .DESTROYER => 4
  | .JET => 6
  | .GENERAL => 1

theorem shapes_ne_nil (t : PieceType) : _SHAPES_2D t ≠ [] := by
  cases t <;> decide

theorem shape_offsets_bounds (t : PieceType) :
    ∀ s ∈ _SHAPES_2D t, ∀ q ∈ s,
      0 ≤ q.1 ∧ q.1 ≤ finMaxFst s ∧ 0 ≤ q.2 ∧ q.2 ≤ finMaxSnd s := by
  cases t <;> decide

theorem shape_card_eq (t : PieceType) :
    ∀ s ∈ _SHAPES_2D t, s.card = typeSize t := by
  cases t <;> decide

theorem randrange_ok_bounds (n : Int) (r : Nat) (v : Int)
    (h : randrange n r = .ok v) : 0 ≤ v ∧ v < n := by
  unfold randrange at h
  split at h
  · cases h
  · injection h with h
    subst h
    have hn : 0 < n := by omega
    exact ⟨Int.emod_nonneg _ (by omega), Int.emod_lt_of_pos _ hn⟩

theorem attempt_ok_some (b : Board3D) (t : PieceType) (r : Rand) (b' : Board3D)
    (h : attempt b t r = .ok (some b')) :
    ∃ shape z x0 y0,
      (_SHAPES_2D t)[r.shapeR % (_SHAPES_2D t).length]? = some shape
      ∧ (if t = .GENERAL then randrange b.depth r.zR else .ok (t.value - 1)) = .ok z
      ∧ randrange (b.cols - finMaxFst shape) r.xR = .ok x0
      ∧ randrange (b.rows - finMaxSnd shape) r.yR = .ok y0
      ∧ (∀ c ∈ shape.image (fun q => (x0 + q.1, y0 + q.2, z)), dictGet b.occupied c = none)
      ∧ b' = commitPiece b t (shape.image (fun q => (x0 + q.1, y0 + q.2, z))) := by
  unfold attempt at h
  rcases h0 : (_SHAPES_2D t)[r.shapeR % (_SHAPES_2D t).length]? with - | shape
  · simp only [h0] at h
    cases h
  simp only [h0] at h
  rcases hz : (if t = .GENERAL then randrange b.depth r.zR else .ok (t.value - 1)) with ez | z
  · simp only [hz] at h
    cases h
  simp only [hz] at h
  rcases hx : randrange (b.cols - finMaxFst shape) r.xR with ex | x0
  · simp only [hx] at h
    cases h
  simp only [hx] at h
  rcases hy : randrange (b.rows - finMaxSnd shape) r.yR with ey | y0
  · simp only [hy] at h
    cases h
  simp only [hy] at h
  split at h
  · cases h
  · rename_i hcol
    injection h with h
    injection h with h
    refine ⟨shape, z, x0, y0, rfl, rfl, hx, hy, ?_, h.symm⟩
    intro c hc
    by_contra hocc
    exact hcol ⟨c, hc, Option.isSome_iff_ne_none.mpr hocc⟩

theorem commitPiece_dims (b : Board3D) (t : PieceType) (s : Finset Coordinate) :
    (commitPiece b t s).depth = b.depth ∧ (commitPiece b t s).rows = b.rows ∧
    (commitPiece b t s).cols = b.cols :=
  ⟨rfl, rfl, rfl⟩

theorem dictGet_mem (l : List (Coordinate × Nat)) (c : Coordinate) (v : Nat)
    (h : dictGet l c = some v) : (c, v) ∈ l := by
  induction l with
  | nil => cases h
  | cons kv t ih =>
    rcases kv with ⟨k, w⟩
    unfold dictGet at h
    split at h
    · injection h with h
      subst h
      rename_i hk
      subst hk
      exact List.mem_cons_self _ _
    · exact List.mem_cons_of_mem _ (ih h)

theorem dictGet_commit (l : List Coordinate) (acc : List (Coordinate × Nat))
    (v : Nat) (c : Coordinate) :
    dictGet (l.foldl (fun a cc => (cc, v) :: a) acc) c =
      if c ∈ l then some v else dictGet acc c := by
  induction l generalizing acc with
  | nil => simp
  | cons d t ih =>
    show dictGet (t.foldl (fun a cc => (cc, v) :: a) ((d, v) :: acc)) c = _
    rw [ih]
    by_cases hct : c ∈ t
    · rw [if_pos hct, if_pos (List.mem_cons_of_mem d hct)]
    · rw [if_neg hct]
      by_cases hdc : d = c
      · subst hdc
        rw [if_pos (List.mem_cons_self d t)]
        unfold dictGet
        rw [if_pos rfl]
      · have hstep : dictGet ((d, v) :: acc) c = dictGet acc c := by
          show (if d = c then some v else dictGet acc c) = dictGet acc c
          rw [if_neg hdc]
        rw [hstep, if_neg ?_]
        intro hm
        rcases List.mem_cons.mp hm with rfl | hm2
        · exact hdc rfl
        · exact hct hm2

theorem mem_foldl_cons (l : List Coordinate) (acc : List (Coordinate × Nat))
    (v : Nat) (pr : Coordinate × Nat) :
    pr ∈ l.foldl (fun a cc => (cc, v) :: a) acc ↔
      (∃ c ∈ l, pr = (c, v)) ∨ pr ∈ acc := by
  induction l generalizing acc with
  | nil => simp
  | cons d t ih =>
    show pr ∈ t.foldl (fun a cc => (cc, v) :: a) ((d, v) :: acc) ↔ _
    rw [ih]
    constructor
    · rintro (⟨c, hc, rfl⟩ | hmem)
      · exact Or.inl ⟨c, List.mem_cons_of_mem d hc, rfl⟩
      · rcases List.mem_cons.mp hmem with rfl | hmem
        · exact Or.inl ⟨d, List.mem_cons_self d t, rfl⟩
        · exact Or.inr hmem
    · rintro (⟨c, hc, rfl⟩ | hmem)
      · rcases List.mem_cons.mp hc with rfl | hc
        · exact Or.inr (List.mem_cons_self _ _)
        · exact Or.inl ⟨c, hc, rfl⟩
      · exact Or.inr (List.mem_cons_of_mem _ hmem)

theorem dictGet_commitPiece (b : Board3D) (t : PieceType) (s : Finset Coordinate)
    (c : Coordinate) :
    dictGet (commitPiece b t s).occupied c =
      if c ∈ s then some b.pieces.length else dictGet b.occupied c := by
  unfold commitPiece
  simp only
  rw [dictGet_commit]
  by_cases hc : c ∈ s
  · rw [if_pos ((mem_coordListOf s c).mpr hc), if_pos hc]
  · rw [if_neg (fun hm => hc ((mem_coordListOf s c).mp hm)), if_neg hc]

theorem mem_occupied_commitPiece (b : Board3D) (t : PieceType) (s : Finset Coordinate)
    (pr : Coordinate × Nat) :
    pr ∈ (commitPiece b t s).occupied ↔
      (∃ c ∈ s, pr = (c, b.pieces.length)) ∨ pr ∈ b.occupied := by
  unfold commitPiece
  simp only
  rw [mem_foldl_cons]
  constructor
  · rintro (⟨c, hc, rfl⟩ | hm)
    · exact Or.inl ⟨c, (mem_coordListOf s c).mp hc, rfl⟩
    · exact Or.inr hm
  · rintro (⟨c, hc, rfl⟩ | hm)
    · exact Or.inl ⟨c, (mem_coordListOf s c).mpr hc, rfl⟩
    · exact Or.inr hm

/-! ### The placement invariant -/

/-- Well-formedness of the coordinate index: every index entry points
to a live piece containing its coordinate, and every coordinate of
every piece is indexed under that piece's position. -/
def WFb (b : Board3D) : Prop :=
  (∀ pr ∈ b.occupied, ∃ h : pr.2 < b.pieces.length, pr.1 ∈ (b.pieces.get ⟨pr.2, h⟩).coords)
  ∧ (∀ i : Nat, ∀ h : i < b.pieces.length, ∀ c ∈ (b.pieces.get ⟨i, h⟩).coords,
      dictGet b.occupied c = some i)

/-- Every piece has exactly its type's cell count. -/
def piecesSized (b : Board3D) : Prop :=
  ∀ p ∈ b.pieces, p.coords.card = typeSize p.piece_type

/-- Every piece cell is within the layer bounds. -/
def boundsXY (b : Board3D) : Prop :=
  ∀ p ∈ b.pieces, ∀ cc ∈ p.coords,
    0 ≤ cc.1 ∧ cc.1 < b.cols ∧ 0 ≤ cc.2.1 ∧ cc.2.1 < b.rows

/-- Every piece cell's layer is nonnegative, and is either within the
layer count or pinned to the piece type's fixed layer. -/
def boundsZ (b : Board3D) : Prop :=
  ∀ p ∈ b.pieces, ∀ cc ∈ p.coords,
    0 ≤ cc.2.2 ∧ (cc.2.2 < b.depth ∨ (p.piece_type ≠ .GENERAL ∧ cc.2.2 = p.piece_type.value - 1))

/-- The master invariant maintained by the placement pass. -/
def PlaceInv (b : Board3D) : Prop :=
  WFb b ∧ piecesSized b ∧ boundsXY b ∧ boundsZ b

theorem PlaceInv_init (d r c : Int) : PlaceInv (Board3D.init d r c) := by
  refine ⟨⟨?_, ?_⟩, ?_, ?_, ?_⟩ <;> intro pr hpr <;> simp [Board3D.init] at hpr

theorem commitPiece_pieces (b : Board3D) (t : PieceType) (s : Finset Coordinate) :
    (commitPiece b t s).pieces = b.pieces ++ [⟨t, s, ∅⟩] := rfl

theorem translate_inj (x0 y0 z : Int) :
    Function.Injective (fun q : Int × Int => ((x0 + q.1, y0 + q.2, z) : Coordinate)) := by
  intro q1 q2 h
  simp only [Prod.mk.injEq] at h
  exact Prod.ext (by omega) (by omega)

theorem WFb_commit (b : Board3D) (t : PieceType) (s : Finset Coordinate)
    (hfresh : ∀ c ∈ s, dictGet b.occupied c = none) (hwf : WFb b) :
    WFb (commitPiece b t s) := by
  obtain ⟨hw1, hw2⟩ := hwf
  have hlen : (commitPiece b t s).pieces.length = b.pieces.length + 1 := by
    rw [commitPiece_pieces, List.length_append]
    rfl
  constructor
  · intro pr hpr
    rcases (mem_occupied_commitPiece b t s pr).mp hpr with ⟨c, hc, rfl⟩ | hold
    · refine ⟨by omega, ?_⟩
      simp only [List.get_eq_getElem, commitPiece_pieces]
      rw [List.getElem_concat_length _ _ _ rfl]
      exact hc
    · obtain ⟨hlt, hmem⟩ := hw1 pr hold
      refine ⟨by omega, ?_⟩
      simp only [List.get_eq_getElem, commitPiece_pieces] at *
      rw [List.getElem_append_left hlt]
      exact hmem
  · intro i h c hc
    rw [hlen] at h
    rw [dictGet_commitPiece]
    by_cases hi : i < b.pieces.length
    · simp only [List.get_eq_getElem, commitPiece_pieces] at hc
      rw [List.getElem_append_left hi] at hc
      have hold := hw2 i hi c (by simpa using hc)
      rw [if_neg ?_]
      · exact hold
      · intro hcs
        rw [hfresh c hcs] at hold
        cases hold
    · have hieq : i = b.pieces.length := by omega
      subst hieq
      simp only [List.get_eq_getElem, commitPiece_pieces] at hc
      rw [List.getElem_concat_length _ _ _ rfl] at hc
      rw [if_pos hc]

theorem PlaceInv_commit (b : Board3D) (t : PieceType) (shape : Finset (Int × Int))
    (z x0 y0 : Int) (hshape : shape ∈ _SHAPES_2D t)
    (hx : 0 ≤ x0 ∧ x0 < b.cols - finMaxFst shape)
    (hy : 0 ≤ y0 ∧ y0 < b.rows - finMaxSnd shape)
    (hzg : t = .GENERAL → 0 ≤ z ∧ z < b.depth)
    (hzn : t ≠ .GENERAL → z = t.value - 1)
    (hfresh : ∀ c ∈ shape.image (fun q => (x0 + q.1, y0 + q.2, z)),
      dictGet b.occupied c = none)
    (hinv : PlaceInv b) :
    PlaceInv (commitPiece b t (shape.image (fun q => (x0 + q.1, y0 + q.2, z)))) := by
  obtain ⟨hwf, hsz, hxy, hz⟩ := hinv
  set coords := shape.image (fun q => (x0 + q.1, y0 + q.2, z)) with hcoords
  refine ⟨WFb_commit b t coords hfresh hwf, ?_, ?_, ?_⟩
  · intro p hp
    rw [commitPiece_pieces] at hp
    rcases List.mem_append.mp hp with hp | hp
    · exact hsz p hp
    · rcases List.mem_singleton.mp hp with rfl
      show coords.card = typeSize t
      rw [hcoords, Finset.card_image_of_injective shape (translate_inj x0 y0 z)]
      exact shape_card_eq t shape hshape
  · intro p hp cc hcc
    rw [commitPiece_pieces] at hp
    show 0 ≤ cc.1 ∧ cc.1 < b.cols ∧ 0 ≤ cc.2.1 ∧ cc.2.1 < b.rows
    rcases List.mem_append.mp hp with hp | hp
    · exact hxy p hp cc hcc
    · rcases List.mem_singleton.mp hp with rfl
      rw [hcoords] at hcc
      obtain ⟨q, hq, rfl⟩ := Finset.mem_image.mp hcc
      obtain ⟨hq1, hq2, hq3, hq4⟩ := shape_offsets_bounds t shape hshape q hq
      refine ⟨by simp; omega, by simp; omega, by simp; omega, by simp; omega⟩
  · intro p hp cc hcc
    rw [commitPiece_pieces] at hp
    show 0 ≤ cc.2.2 ∧ (cc.2.2 < b.depth ∨
      (p.piece_type ≠ .GENERAL ∧ cc.2.2 = p.piece_type.value - 1))
    rcases List.mem_append.mp hp with hp | hp
    · exact hz p hp cc hcc
    · rcases List.mem_singleton.mp hp with rfl
      rw [hcoords] at hcc
      obtain ⟨q, hq, rfl⟩ := Finset.mem_image.mp hcc
      by_cases hg : t = .GENERAL
      · obtain ⟨hz1, hz2⟩ := hzg hg
        exact ⟨hz1, Or.inl hz2⟩
      · have hzv := hzn hg
        subst hzv
        refine ⟨?_, Or.inr ⟨hg, rfl⟩⟩
        cases t <;> simp [PieceType.value] <;> try exact absurd rfl hg

theorem attempt_preserves (b : Board3D) (t : PieceType) (r : Rand) (b' : Board3D)
    (h : attempt b t r = .ok (some b')) (hinv : PlaceInv b) :
    PlaceInv b' ∧ b'.depth = b.depth ∧ b'.rows = b.rows ∧ b'.cols = b.cols := by
  obtain ⟨shape, z, x0, y0, hsh, hz, hx, hy, hfresh, rfl⟩ := attempt_ok_some b t r b' h
  have hshape : shape ∈ _SHAPES_2D t := List.getElem?_mem hsh
  have hxb := randrange_ok_bounds _ _ _ hx
  have hyb := randrange_ok_bounds _ _ _ hy
  refine ⟨PlaceInv_commit b t shape z x0 y0 hshape ⟨hxb.1, hxb.2⟩ ⟨hyb.1, hyb.2⟩
      ?_ ?_ hfresh hinv, rfl, rfl, rfl⟩
  · intro hg
    rw [if_pos hg] at hz
    exact randrange_ok_bounds _ _ _ hz
  · intro hg
    rw [if_neg hg] at hz
    injection hz with hz
    exact hz.symm

theorem placeAux_preserves (b : Board3D) (t : PieceType) (n : Nat) (tape : Nat → Rand)
    (b' : Board3D) (tape2 : Nat → Rand)
    (h : placeAux b t n tape = .ok (b', tape2)) (hinv : PlaceInv b) :
    PlaceInv b' ∧ b'.depth = b.depth ∧ b'.rows = b.rows ∧ b'.cols = b.cols := by
  induction n generalizing tape with
  | zero => cases h
  | succ n ih =>
    unfold placeAux at h
    rcases ha : attempt b t (tape 0) with ea | ob
    · simp only [ha] at h
      cases h
    simp only [ha] at h
    rcases ob with - | b2
    · exact ih _ h
    · injection h with h
      injection h with h1 h2
      subst h1
      exact attempt_preserves b t (tape 0) _ ha hinv

theorem placeN_preserves (t : PieceType) (b : Board3D) (n : Nat) (tape : Nat → Rand)
    (b' : Board3D) (tape2 : Nat → Rand)
    (h : placeN t b n tape = .ok (b', tape2)) (hinv : PlaceInv b) :
    PlaceInv b' ∧ b'.depth = b.depth ∧ b'.rows = b.rows ∧ b'.cols = b.cols := by
  induction n generalizing b tape with
  | zero =>
    unfold placeN at h
    injection h with h
    injection h with h1 h2
    subst h1
    exact ⟨hinv, rfl, rfl, rfl⟩
  | succ n ih =>
    unfold placeN at h
    rcases hp : _place_random b t tape with ep | pr
    · simp only [hp] at h
      cases h
    simp only [hp] at h
    obtain ⟨hinv2, hd, hr, hc⟩ :=
      placeAux_preserves b t 1000 tape pr.1 pr.2 hp hinv
    obtain ⟨hinv3, hd2, hr2, hc2⟩ := ih pr.1 pr.2 h hinv2
    exact ⟨hinv3, by omega, by omega, by omega⟩

theorem placeLoop_preserves (counts : PieceType → Nat) (b : Board3D)
    (l : List PieceType) (tape : Nat → Rand) (b' : Board3D) (tape2 : Nat → Rand)
    (h : placeLoop counts b l tape = .ok (b', tape2)) (hinv : PlaceInv b) :
    PlaceInv b' ∧ b'.depth = b.depth ∧ b'.rows = b.rows ∧ b'.cols = b.cols := by
  induction l generalizing b tape with
  | nil =>
    unfold placeLoop at h
    injection h with h
    injection h with h1 h2
    subst h1
    exact ⟨hinv, rfl, rfl, rfl⟩
  | cons t ts ih =>
    unfold placeLoop at h
    rcases hp : placeN t b (counts t) tape with ep | pr
    · simp only [hp] at h
      cases h
    simp only [hp] at h
    obtain ⟨hinv2, hd, hr, hc⟩ :=
      placeN_preserves t b (counts t) tape pr.1 pr.2 hp hinv
    obtain ⟨hinv3, hd2, hr2, hc2⟩ := ih pr.1 pr.2 h hinv2
    exact ⟨hinv3, by omega, by omega, by omega⟩

theorem place_all_inv (b : Board3D) (counts : PieceType → Nat) (tape : Nat → Rand)
    (b' : Board3D) (h : place_all b counts tape = .ok b') (hinv : PlaceInv b) :
    PlaceInv b' ∧ b'.depth = b.depth ∧ b'.rows = b.rows ∧ b'.cols = b.cols := by
  unfold place_all at h
  split at h
  · cases h
  split at h
  · cases h
  rcases hx : placeLoop counts b pieceTypes tape with ex | pr
  · rw [hx] at h
    cases h
  · rw [hx] at h
    injection h with h
    subst h
    exact placeLoop_preserves counts b pieceTypes tape pr.1 pr.2 hx hinv

/-! ### Claims about the placement pass -/

/-- C7: after a successful placement pass from the empty board, the
coordinate index maps exactly the occupied coordinates to the unique
piece containing them, distinct pieces never share a coordinate, and
every piece has its type's fixed cell count. -/
theorem claim_C7_index_invariants (d r c : Int) (counts : PieceType → Nat)
    (tape : Nat → Rand) (b : Board3D)
    (h : place_all (Board3D.init d r c) counts tape = .ok b) :
    (∀ cc i, dictGet b.occupied cc = some i →
      ∃ hlt : i < b.pieces.length, cc ∈ (b.pieces.get ⟨i, hlt⟩).coords)
    ∧ (∀ i : Nat, ∀ hlt : i < b.pieces.length, ∀ cc ∈ (b.pieces.get ⟨i, hlt⟩).coords,
        dictGet b.occupied cc = some i)
    ∧ (∀ i j : Nat, ∀ hi : i < b.pieces.length, ∀ hj : j < b.pieces.length, i ≠ j →
        Disjoint (b.pieces.get ⟨i, hi⟩).coords (b.pieces.get ⟨j, hj⟩).coords)
    ∧ (∀ p ∈ b.pieces, p.coords.card = typeSize p.piece_type) := by
  obtain ⟨⟨hw1, hw2⟩, hsz, -, -⟩ :=
    (place_all_inv _ counts tape b h (PlaceInv_init d r c)).1
  refine ⟨?_, hw2, ?_, hsz⟩
  · intro cc i hdg
    exact hw1 (cc, i) (dictGet_mem _ _ _ hdg)
  · intro i j hi hj hij
    rw [Finset.disjoint_left]
    intro cc hcc hcc2
    have h1 := hw2 i hi cc hcc
    have h2 := hw2 j hj cc hcc2
    rw [h1] at h2
    injection h2 with h2
    exact hij h2

/-- Witness for C7 on the concrete board built by place_all: the first
destroyer cell is indexed to piece 0. -/
theorem claim_C7_witness : dictGet c8b0.occupied (0, 0, 1) = some 0 :=
  (claim_C7_index_invariants 3 5 5 countsDG tape0 c8b0 rfl).2.1 0 (by decide)
    (0, 0, 1) (by decide)

/-- Full in-bounds property of a board, including the layer index. -/
def boardInBounds (b : Board3D) : Prop :=
  ∀ p ∈ b.pieces, ∀ cc ∈ p.coords,
    0 ≤ cc.1 ∧ cc.1 < b.cols ∧ 0 ≤ cc.2.1 ∧ cc.2.1 < b.rows ∧
    0 ≤ cc.2.2 ∧ cc.2.2 < b.depth

instance (b : Board3D) : Decidable (boardInBounds b) := by
  unfold boardInBounds
  infer_instance

/-- The board place_all builds on a single-layer 5 by 5 configuration
holding one Destroyer and the General. -/
def c5board : Board3D :=
  match place_all (Board3D.init 1 5 5) countsDG tape0 with
  | .ok b => b
  | .error _ => Board3D.init 0 0 0

/-- Counterexample to C5 as stated: with a positive layer count of 1
the placement pass succeeds, yet the Destroyer is placed on layer 1,
outside [0, layerCount). -/
theorem claim_C5_counterexample :
    place_all (Board3D.init 1 5 5) countsDG tape0 = .ok c5board
    ∧ (0 : Int) < c5board.depth
    ∧ ¬ boardInBounds c5board :=
  ⟨rfl, by decide, by decide⟩

/-- C5 (amended): after every successful placement pass from an empty
board the x and y of every placed cell are within the layer bounds for
any dimensions, and when the layer count is at least 3 (as in the
shipped game, which fixes it to 3) the layer index is also within
[0, layerCount). -/
theorem claim_C5_bounds (d r c : Int) (counts : PieceType → Nat) (tape : Nat → Rand)
    (b : Board3D) (h : place_all (Board3D.init d r c) counts tape = .ok b) :
    (b.depth = d ∧ b.rows = r ∧ b.cols = c)
    ∧ (∀ p ∈ b.pieces, ∀ cc ∈ p.coords,
        0 ≤ cc.1 ∧ cc.1 < c ∧ 0 ≤ cc.2.1 ∧ cc.2.1 < r)
    ∧ (3 ≤ d → boardInBounds b) := by
  obtain ⟨⟨-, -, hxy, hz⟩, hd, hr, hc⟩ :=
    place_all_inv _ counts tape b h (PlaceInv_init d r c)
  have hd2 : b.depth = d := hd
  have hr2 : b.rows = r := hr
  have hc2 : b.cols = c := hc
  refine ⟨⟨hd2, hr2, hc2⟩, ?_, ?_⟩
  · intro p hp cc hcc
    have := hxy p hp cc hcc
    rw [hr2, hc2] at this
    exact this
  · intro h3 p hp cc hcc
    obtain ⟨h1, h2, h3x, h4⟩ := hxy p hp cc hcc
    obtain ⟨hz0, hz1⟩ := hz p hp cc hcc
    refine ⟨h1, h2, h3x, h4, hz0, ?_⟩
    rcases hz1 with hz1 | ⟨hne, hzeq⟩
    · exact hz1
    · have hval : p.piece_type.value ≤ 3 := by
        cases hpt : p.piece_type
        · decide
        · decide
        · decide
        · exact absurd hpt hne
      rw [hd2]
      omega

/-- Witness for C5 on the concrete 3-layer board: all cells in bounds. -/
theorem claim_C5_witness : boardInBounds c8b0 :=
  (claim_C5_bounds 3 5 5 countsDG tape0 c8b0 rfl).2.2 (by omega)

/-! ### Claim C4: outcomes of the single-vessel placement routine -/

theorem attempt_total (b : Board3D) (t : PieceType) (r : Rand)
    (hfit : ∀ s ∈ _SHAPES_2D t, 1 ≤ b.cols - finMaxFst s ∧ 1 ≤ b.rows - finMaxSnd s)
    (hdepth : t = .GENERAL → 1 ≤ b.depth) :
    (∃ coords : Finset Coordinate, (∀ c ∈ coords, dictGet b.occupied c = none) ∧
      attempt b t r = .ok (some (commitPiece b t coords)))
    ∨ attempt b t r = .ok none := by
  have hlen : 0 < (_SHAPES_2D t).length := List.length_pos.mpr (shapes_ne_nil t)
  have hidx : r.shapeR % (_SHAPES_2D t).length < (_SHAPES_2D t).length :=
    Nat.mod_lt _ hlen
  unfold attempt
  rcases hget : (_SHAPES_2D t)[r.shapeR % (_SHAPES_2D t).length]? with - | shape
  · rw [List.getElem?_eq_none_iff] at hget
    omega
  have hshape := List.getElem?_mem hget
  obtain ⟨hfx, hfy⟩ := hfit shape hshape
  have hz : (if t = .GENERAL then randrange b.depth r.zR else .ok (t.value - 1)) =
      .ok (if t = .GENERAL then (r.zR : Int) % b.depth else t.value - 1) := by
    by_cases hg : t = .GENERAL
    · rw [if_pos hg, if_pos hg]
      unfold randrange
      rw [if_neg (by have := hdepth hg; omega)]
    · rw [if_neg hg, if_neg hg]
  have hx : randrange (b.cols - finMaxFst shape) r.xR =
      .ok ((r.xR : Int) % (b.cols - finMaxFst shape)) := by
    unfold randrange
    rw [if_neg (by omega)]
  have hy : randrange (b.rows - finMaxSnd shape) r.yR =
      .ok ((r.yR : Int) % (b.rows - finMaxSnd shape)) := by
    unfold randrange
    rw [if_neg (by omega)]
  simp only [hget, hz, hx, hy]
  set x0 := (r.xR : Int) % (b.cols - finMaxFst shape)
  set y0 := (r.yR : Int) % (b.rows - finMaxSnd shape)
  set z := if t = .GENERAL then (r.zR : Int) % b.depth else t.value - 1
  by_cases hcol : ∃ c ∈ shape.image (fun q => (x0 + q.1, y0 + q.2, z)),
    (dictGet b.occupied c).isSome
  · right
    rw [if_pos hcol]
  · left
    refine ⟨shape.image (fun q => (x0 + q.1, y0 + q.2, z)), ?_, ?_⟩
    · intro cc hcc
      by_contra hocc
      exact hcol ⟨cc, hcc, Option.isSome_iff_ne_none.mpr hocc⟩
    · rw [if_neg hcol]

theorem placeAux_total (b : Board3D) (t : PieceType) (n : Nat) (tape : Nat → Rand)
    (hfit : ∀ s ∈ _SHAPES_2D t, 1 ≤ b.cols - finMaxFst s ∧ 1 ≤ b.rows - finMaxSnd s)
    (hdepth : t = .GENERAL → 1 ≤ b.depth) :
    (∃ coords : Finset Coordinate, ∃ tape2 : Nat → Rand,
      (∀ c ∈ coords, dictGet b.occupied c = none) ∧
      placeAux b t n tape = .ok (commitPiece b t coords, tape2))
    ∨ placeAux b t n tape = .error .placementExhausted := by
  induction n generalizing tape with
  | zero =>
    right
    rfl
  | succ n ih =>
    unfold placeAux
    rcases attempt_total b t (tape 0) hfit hdepth with ⟨coords, hfr, ha⟩ | ha
    · left
      refine ⟨coords, fun i => tape (i + 1), hfr, ?_⟩
      simp only [ha]
    · simp only [ha]
      exact ih (fun i => tape (i + 1))

/-- C4 (amended): when every rotation variant of the type fits inside
the layer (and the layer count is positive for the General), the
single-vessel placement routine either commits a collision-free
placement within the 1000-attempt bound or fails with
PlacementExhausted; without that fitting condition it can instead
raise the empty-range error of randrange, as the counterexample
shows, even though capacity pre-validation passed. -/
theorem claim_C4_place_random (b : Board3D) (t : PieceType) (tape : Nat → Rand)
    (hfit : ∀ s ∈ _SHAPES_2D t, 1 ≤ b.cols - finMaxFst s ∧ 1 ≤ b.rows - finMaxSnd s)
    (hdepth : t = .GENERAL → 1 ≤ b.depth) :
    (∃ coords : Finset Coordinate, ∃ tape2 : Nat → Rand,
      (∀ c ∈ coords, dictGet b.occupied c = none) ∧
      _place_random b t tape = .ok (commitPiece b t coords, tape2))
    ∨ _place_random b t tape = .error .placementExhausted :=
  placeAux_total b t 1000 tape hfit hdepth

/-- Counterexample to C4 as stated: on a 5-row by 3-column board the
Destroyer passes capacity pre-validation (its vertical orientation
fits), yet the placement routine draws the horizontal variant and
randrange is called on the empty range cols minus 3, raising an
error that is neither a commit nor PlacementExhausted. -/
theorem claim_C4_counterexample :
    countsDG .GENERAL = 1
    ∧ capacityViolation (Board3D.init 3 5 3).rows (Board3D.init 3 5 3).cols
        countsDG pieceTypes = false
    ∧ _place_random (Board3D.init 3 5 3) .DESTROYER tape0 = .error .rangeError
    ∧ place_all (Board3D.init 3 5 3) countsDG tape0 = .error .rangeError :=
  ⟨rfl, by decide, rfl, rfl⟩

/-- Witness for C4 at a concrete fitting configuration. -/
theorem claim_C4_witness :
    (∃ coords : Finset Coordinate, ∃ tape2 : Nat → Rand,
      (∀ c ∈ coords, dictGet (Board3D.init 3 5 5).occupied c = none) ∧
      _place_random (Board3D.init 3 5 5) .SUBMARINE tape0 =
        .ok (commitPiece (Board3D.init 3 5 5) .SUBMARINE coords, tape2))
    ∨ _place_random (Board3D.init 3 5 5) .SUBMARINE tape0 = .error .placementExhausted :=
  claim_C4_place_random (Board3D.init 3 5 5) .SUBMARINE tape0 (by decide) (by decide)

/-! ### Claim C10: the per-type layer assignment -/

/-- C10: every successful attempt places the Submarine on layer 0, the
Destroyer on layer 1, the Jet on layer 2 (always the enum value minus
one), while the General's layer is the randrange draw over the full
layer range, and every layer below the layer count is a possible
outcome of that draw. -/
theorem claim_C10_layer_assignment (b : Board3D) (t : PieceType) (r : Rand)
    (b' : Board3D) (h : attempt b t r = .ok (some b')) :
    (∃ coords : Finset Coordinate,
      b'.pieces = b.pieces ++ [⟨t, coords, ∅⟩]
      ∧ (t = .SUBMARINE → ∀ cc ∈ coords, cc.2.2 = 0)
      ∧ (t = .DESTROYER → ∀ cc ∈ coords, cc.2.2 = 1)
      ∧ (t = .JET → ∀ cc ∈ coords, cc.2.2 = 2)
      ∧ (t ≠ .GENERAL → ∀ cc ∈ coords, cc.2.2 = t.value - 1)
      ∧ (t = .GENERAL → ∀ cc ∈ coords, cc.2.2 = (r.zR : Int) % b.depth))
    ∧ (∀ k : Int, 0 ≤ k → k < b.depth → randrange b.depth k.toNat = .ok k) := by
  constructor
  · obtain ⟨shape, z, x0, y0, hsh, hz, hx, hy, hfresh, rfl⟩ := attempt_ok_some b t r b' h
    refine ⟨shape.image (fun q => (x0 + q.1, y0 + q.2, z)), commitPiece_pieces _ _ _,
      ?_, ?_, ?_, ?_, ?_⟩ <;> intro ht
    · intro cc hcc
      obtain ⟨q, -, rfl⟩ := Finset.mem_image.mp hcc
      show z = 0
      rw [if_neg (by rw [ht]; exact fun hh => PieceType.noConfusion hh)] at hz
      injection hz with hz
      rw [← hz, ht]
      rfl
    · intro cc hcc
      obtain ⟨q, -, rfl⟩ := Finset.mem_image.mp hcc
      show z = 1
      rw [if_neg (by rw [ht]; exact fun hh => PieceType.noConfusion hh)] at hz
      injection hz with hz
      rw [← hz, ht]
      rfl
    · intro cc hcc
      obtain ⟨q, -, rfl⟩ := Finset.mem_image.mp hcc
      show z = 2
      rw [if_neg (by rw [ht]; exact fun hh => PieceType.noConfusion hh)] at hz
      injection hz with hz
      rw [← hz, ht]
      rfl
    · intro cc hcc
      obtain ⟨q, -, rfl⟩ := Finset.mem_image.mp hcc
      show z = t.value - 1
      rw [if_neg ht] at hz
      injection hz with hz
      exact hz.symm
    · intro cc hcc
      obtain ⟨q, -, rfl⟩ := Finset.mem_image.mp hcc
      show z = (r.zR : Int) % b.depth
      rw [if_pos ht] at hz
      unfold randrange at hz
      split at hz
      · cases hz
      · injection hz with hz
        exact hz.symm
  · intro k hk0 hkd
    unfold randrange
    rw [if_neg (by omega)]
    rw [Int.toNat_of_nonneg hk0, Int.emod_eq_of_lt hk0 hkd]

/-- The board produced by one concrete successful Submarine attempt. -/
def c10board : Board3D :=
  match attempt (Board3D.init 3 5 5) .SUBMARINE ⟨0, 0, 0, 0⟩ with
  | .ok (some b) => b
  | _ => Board3D.init 0 0 0

/-- Witness for C10: layer 1 is a possible outcome of the General's
layer draw on the 3-layer board. -/
theorem claim_C10_witness :
    randrange (Board3D.init 3 5 5).depth (Int.toNat 1) = .ok 1 :=
  (claim_C10_layer_assignment (Board3D.init 3 5 5) .SUBMARINE ⟨0, 0, 0, 0⟩
    c10board rfl).2 1 (by decide) (by decide)

/-! ### Claim C9: the rotation library -/

theorem foldlMin_le_init (t : List Int) : ∀ a : Int, t.foldl min a ≤ a := by
  induction t with
  | nil => intro a; exact le_refl a
  | cons x t ih =>
    intro a
    exact le_trans (ih (min a x)) (min_le_left a x)

theorem foldlMin_le_mem (t : List Int) : ∀ x ∈ t, ∀ a : Int, t.foldl min a ≤ x := by
  induction t with
  | nil => intro x hx; cases hx
  | cons y t ih =>
    intro x hx a
    rcases List.mem_cons.mp hx with rfl | hx
    · exact le_trans (foldlMin_le_init t (min a x)) (min_le_right a x)
    · exact ih x hx (min a y)

theorem foldlMin_mem (t : List Int) : ∀ a : Int, t.foldl min a = a ∨ t.foldl min a ∈ t := by
  induction t with
  | nil => intro a; exact Or.inl rfl
  | cons y t ih =>
    intro a
    rcases ih (min a y) with h | h
    · rcases min_cases a y with ⟨hm, -⟩ | ⟨hm, -⟩
      · exact Or.inl (by rw [List.foldl_cons, h, hm])
      · exact Or.inr (by rw [List.foldl_cons, h, hm]; exact List.mem_cons_self y t)
    · exact Or.inr (List.mem_cons_of_mem y h)

theorem listMin_le (l : List Int) (a : Int) (ha : a ∈ l) : listMin l ≤ a := by
  rcases l with - | ⟨x, t⟩
  · cases ha
  show t.foldl min x ≤ a
  rcases List.mem_cons.mp ha with rfl | ha
  · exact foldlMin_le_init t a
  · exact foldlMin_le_mem t a ha x

theorem listMin_mem (l : List Int) (h : l ≠ []) : listMin l ∈ l := by
  rcases l with - | ⟨x, t⟩
  · exact absurd rfl h
  show t.foldl min x ∈ x :: t
  rcases foldlMin_mem t x with h2 | h2
  · rw [h2]
    exact List.mem_cons_self x t
  · exact List.mem_cons_of_mem x h2

theorem listMin_eq_of (l : List Int) (m : Int) (hm : m ∈ l) (hle : ∀ a ∈ l, m ≤ a) :
    listMin l = m :=
  le_antisymm (listMin_le l m hm)
    (hle _ (listMin_mem l (List.ne_nil_of_mem hm)))

theorem finMinFst_le (s : Finset (Int × Int)) (p : Int × Int) (hp : p ∈ s) :
    finMinFst s ≤ p.1 := by
  have hs : (s.image Prod.fst).Nonempty := ⟨p.1, Finset.mem_image_of_mem _ hp⟩
  unfold finMinFst
  rw [← Finset.coe_min' hs]
  exact Finset.min'_le _ _ (Finset.mem_image_of_mem _ hp)

theorem finMinFst_mem (s : Finset (Int × Int)) (hs : s.Nonempty) :
    ∃ p ∈ s, p.1 = finMinFst s := by
  have hi : (s.image Prod.fst).Nonempty := hs.image _
  unfold finMinFst
  rw [← Finset.coe_min' hi]
  obtain ⟨p, hp, hval⟩ := Finset.mem_image.mp (Finset.min'_mem (s.image Prod.fst) hi)
  exact ⟨p, hp, hval⟩

theorem finMinFst_eq_of (s : Finset (Int × Int)) (m : Int)
    (hm : ∃ p ∈ s, p.1 = m) (hle : ∀ p ∈ s, m ≤ p.1) : finMinFst s = m := by
  obtain ⟨p, hp, hpm⟩ := hm
  obtain ⟨q, hq, hqm⟩ := finMinFst_mem s ⟨p, hp⟩
  exact le_antisymm (hpm ▸ finMinFst_le s p hp) (hqm ▸ hle q hq)

theorem finMinSnd_le (s : Finset (Int × Int)) (p : Int × Int) (hp : p ∈ s) :
    finMinSnd s ≤ p.2 := by
  have hs : (s.image Prod.snd).Nonempty := ⟨p.2, Finset.mem_image_of_mem _ hp⟩
  unfold finMinSnd
  rw [← Finset.coe_min' hs]
  exact Finset.min'_le _ _ (Finset.mem_image_of_mem _ hp)

theorem finMinSnd_mem (s : Finset (Int × Int)) (hs : s.Nonempty) :
    ∃ p ∈ s, p.2 = finMinSnd s := by
  have hi : (s.image Prod.snd).Nonempty := hs.image _
  unfold finMinSnd
  rw [← Finset.coe_min' hi]
  obtain ⟨p, hp, hval⟩ := Finset.mem_image.mp (Finset.min'_mem (s.image Prod.snd) hi)
  exact ⟨p, hp, hval⟩

theorem finMinSnd_eq_of (s : Finset (Int × Int)) (m : Int)
    (hm : ∃ p ∈ s, p.2 = m) (hle : ∀ p ∈ s, m ≤ p.2) : finMinSnd s = m := by
  obtain ⟨p, hp, hpm⟩ := hm
  obtain ⟨q, hq, hqm⟩ := finMinSnd_mem s ⟨p, hp⟩
  exact le_antisymm (hpm ▸ finMinSnd_le s p hp) (hqm ▸ hle q hq)

/-- Set-level normalisation: what _normalize computes, expressed on the
set of offsets rather than a listing of it. -/
def normSet (s : Finset (Int × Int)) : Finset (Int × Int) :=
  s.image (fun p => (p.1 - finMinFst s, p.2 - finMinSnd s))

/-- Set-level translation of every offset. -/
def shiftSet (a b : Int) (s : Finset (Int × Int)) : Finset (Int × Int) :=
  s.image (fun p => (p.1 + a, p.2 + b))

/-- Set-level 90-degree rotation of every offset. -/
def rotSet (s : Finset (Int × Int)) : Finset (Int × Int) :=
  s.image (fun p => (p.2, -p.1))

theorem listMin_map_fst (l : List (Int × Int)) (hl : l ≠ []) :
    listMin (l.map Prod.fst) = finMinFst l.toFinset := by
  refine listMin_eq_of _ _ ?_ ?_
  · obtain ⟨p, hp, hval⟩ :=
      finMinFst_mem l.toFinset ((List.toFinset_nonempty_iff l).mpr hl)
    exact hval ▸ List.mem_map_of_mem Prod.fst (List.mem_toFinset.mp hp)
  · intro a ha
    obtain ⟨p, hp, rfl⟩ := List.mem_map.mp ha
    exact finMinFst_le l.toFinset p (List.mem_toFinset.mpr hp)

theorem listMin_map_snd (l : List (Int × Int)) (hl : l ≠ []) :
    listMin (l.map Prod.snd) = finMinSnd l.toFinset := by
  refine listMin_eq_of _ _ ?_ ?_
  · obtain ⟨p, hp, hval⟩ :=
      finMinSnd_mem l.toFinset ((List.toFinset_nonempty_iff l).mpr hl)
    exact hval ▸ List.mem_map_of_mem Prod.snd (List.mem_toFinset.mp hp)
  · intro a ha
    obtain ⟨p, hp, rfl⟩ := List.mem_map.mp ha
    exact finMinSnd_le l.toFinset p (List.mem_toFinset.mpr hp)

theorem map_toFinset_image (l : List (Int × Int)) (f : Int × Int → Int × Int) :
    (l.map f).toFinset = l.toFinset.image f := by
  ext p
  simp

theorem _normalize_eq_normSet (l : List (Int × Int)) (hl : l ≠ []) :
    _normalize l = normSet l.toFinset := by
  unfold _normalize normSet
  rw [listMin_map_fst l hl, listMin_map_snd l hl]
  exact map_toFinset_image l _

theorem finMinFst_shift (a b : Int) (s : Finset (Int × Int)) (hs : s.Nonempty) :
    finMinFst (shiftSet a b s) = finMinFst s + a := by
  refine finMinFst_eq_of _ _ ?_ ?_
  · obtain ⟨p, hp, hval⟩ := finMinFst_mem s hs
    exact ⟨(p.1 + a, p.2 + b), Finset.mem_image_of_mem _ hp, by rw [hval]⟩
  · intro q hq
    obtain ⟨p, hp, rfl⟩ := Finset.mem_image.mp hq
    have := finMinFst_le s p hp
    simp only
    omega

theorem finMinSnd_shift (a b : Int) (s : Finset (Int × Int)) (hs : s.Nonempty) :
    finMinSnd (shiftSet a b s) = finMinSnd s + b := by
  refine finMinSnd_eq_of _ _ ?_ ?_
  · obtain ⟨p, hp, hval⟩ := finMinSnd_mem s hs
    exact ⟨(p.1 + a, p.2 + b), Finset.mem_image_of_mem _ hp, by rw [hval]⟩
  · intro q hq
    obtain ⟨p, hp, rfl⟩ := Finset.mem_image.mp hq
    have := finMinSnd_le s p hp
    simp only
    omega

theorem normSet_shift (a b : Int) (s : Finset (Int × Int)) :
    normSet (shiftSet a b s) = normSet s := by
  rcases s.eq_empty_or_nonempty with rfl | hs
  · simp [normSet, shiftSet]
  unfold normSet
  rw [finMinFst_shift a b s hs, finMinSnd_shift a b s hs]
  show Finset.image _ (shiftSet a b s) = _
  unfold shiftSet
  rw [Finset.image_image]
  apply Finset.image_congr
  intro p _
  show (p.1 + a - (finMinFst s + a), p.2 + b - (finMinSnd s + b)) = _
  rw [Prod.mk.injEq]
  omega

theorem normSet_eq_shiftSet (s : Finset (Int × Int)) :
    normSet s = shiftSet (-(finMinFst s)) (-(finMinSnd s)) s := by
  unfold normSet shiftSet
  apply Finset.image_congr
  intro p _
  rw [Prod.mk.injEq]
  omega

theorem rotSet_shift (a b : Int) (s : Finset (Int × Int)) :
    rotSet (shiftSet a b s) = shiftSet b (-a) (rotSet s) := by
  unfold rotSet shiftSet
  rw [Finset.image_image, Finset.image_image]
  apply Finset.image_congr
  intro p _
  show ((p.2 + b, -(p.1 + a)) : Int × Int) = (p.2 + b, -p.1 + -a)
  rw [Prod.mk.injEq]
  omega

theorem rotSet_four (s : Finset (Int × Int)) :
    rotSet (rotSet (rotSet (rotSet s))) = s := by
  unfold rotSet
  rw [Finset.image_image, Finset.image_image, Finset.image_image]
  have : ((((fun p : Int × Int => (p.2, -p.1)) ∘ (fun p => (p.2, -p.1))) ∘
      (fun p => (p.2, -p.1))) ∘ (fun p => (p.2, -p.1))) = id := by
    funext p
    show ((- - p.1, - - p.2) : Int × Int) = p
    rw [Prod.ext_iff]
    constructor <;> simp
  rw [this, Finset.image_id]

theorem norm_rot_norm (s : Finset (Int × Int)) :
    normSet (rotSet (normSet s)) = normSet (rotSet s) := by
  rw [normSet_eq_shiftSet s, rotSet_shift, normSet_shift]

theorem rotate90_toFinset (l : List (Int × Int)) :
    (rotate90 l).toFinset = rotSet l.toFinset := by
  unfold rotate90
  rw [map_toFinset_image]
  rfl

theorem rotate90_iterate_toFinset (k : Nat) (l : List (Int × Int)) :
    (rotate90^[k] l).toFinset = rotSet^[k] l.toFinset := by
  induction k generalizing l with
  | zero => rfl
  | succ k ih =>
    rw [Function.iterate_succ_apply, Function.iterate_succ_apply, ← rotate90_toFinset]
    exact ih (rotate90 l)

theorem rotate90_ne_nil (l : List (Int × Int)) (h : l ≠ []) : rotate90 l ≠ [] := by
  unfold rotate90
  simpa using h

theorem rotate90_iterate_ne_nil (k : Nat) (l : List (Int × Int)) (h : l ≠ []) :
    rotate90^[k] l ≠ [] := by
  induction k generalizing l with
  | zero => exact h
  | succ k ih =>
    rw [Function.iterate_succ_apply]
    exact ih (rotate90 l) (rotate90_ne_nil l h)

theorem rotationsAux_mono (n : Nat) (cur : List (Int × Int))
    (configs : List (Finset (Int × Int))) (v : Finset (Int × Int)) (hv : v ∈ configs) :
    v ∈ rotationsAux n cur configs := by
  induction n generalizing cur configs with
  | zero => exact hv
  | succ n ih =>
    unfold rotationsAux
    apply ih
    split
    · exact hv
    · exact List.mem_append_left _ hv

theorem rotationsAux_contains (n : Nat) (cur : List (Int × Int))
    (configs : List (Finset (Int × Int))) :
    ∀ k < n, _normalize (rotate90^[k] cur) ∈ rotationsAux n cur configs := by
  induction n generalizing cur configs with
  | zero => intro k hk; omega
  | succ n ih =>
    intro k hk
    unfold rotationsAux
    rcases k with - | k
    · apply rotationsAux_mono
      split
      · assumption
      · exact List.mem_append_right _ (List.mem_singleton_self _)
    · rw [Function.iterate_succ_apply]
      exact ih (rotate90 cur) _ k (by omega)

theorem rotationsAux_sound (n : Nat) (cur : List (Int × Int))
    (configs : List (Finset (Int × Int))) (v : Finset (Int × Int))
    (hv : v ∈ rotationsAux n cur configs) :
    v ∈ configs ∨ ∃ k < n, v = _normalize (rotate90^[k] cur) := by
  induction n generalizing cur configs with
  | zero => exact Or.inl hv
  | succ n ih =>
    unfold rotationsAux at hv
    rcases ih (rotate90 cur) _ hv with hin | ⟨k, hk, hkeq⟩
    · split at hin
      · exact Or.inl hin
      · rcases List.mem_append.mp hin with hin | hin
        · exact Or.inl hin
        · refine Or.inr ⟨0, by omega, ?_⟩
          rw [List.mem_singleton.mp hin]
          rfl
    · refine Or.inr ⟨k + 1, by omega, ?_⟩
      rw [hkeq, Function.iterate_succ_apply]

theorem rotationsAux_nodup (n : Nat) (cur : List (Int × Int))
    (configs : List (Finset (Int × Int))) (h : configs.Nodup) :
    (rotationsAux n cur configs).Nodup := by
  induction n generalizing cur configs with
  | zero => exact h
  | succ n ih =>
    unfold rotationsAux
    apply ih
    split
    · exact h
    · rename_i hmem
      rw [List.nodup_append]
      exact ⟨h, List.nodup_singleton _, by
        intro a ha hb
        rw [List.mem_singleton.mp hb] at ha
        exact hmem ha⟩

theorem rotationsAux_length (n : Nat) (cur : List (Int × Int))
    (configs : List (Finset (Int × Int))) :
    (rotationsAux n cur configs).length ≤ configs.length + n := by
  induction n generalizing cur configs with
  | zero => exact le_refl _
  | succ n ih =>
    unfold rotationsAux
    refine le_trans (ih (rotate90 cur) _) ?_
    split
    · omega
    · rw [List.length_append]
      simp only [List.length_singleton]
      omega

theorem rotationsAux_ne_nil (n : Nat) (cur : List (Int × Int))
    (configs : List (Finset (Int × Int))) (h : configs ≠ []) :
    rotationsAux n cur configs ≠ [] := by
  induction n generalizing cur configs with
  | zero => exact h
  | succ n ih =>
    unfold rotationsAux
    apply ih
    split
    · exact h
    · exact List.append_ne_nil_of_right_ne_nil _ (by simp)

theorem _get_rotations_length (base : List (Int × Int)) :
    1 ≤ (_get_rotations base).length ∧ (_get_rotations base).length ≤ 4 := by
  constructor
  · have : _get_rotations base ≠ [] := by
      unfold _get_rotations rotationsAux
      simp only [List.not_mem_nil, if_false, List.nil_append]
      exact rotationsAux_ne_nil 3 _ _ (by simp)
    rcases h : _get_rotations base with - | ⟨v, t⟩
    · exact absurd h this
    · simp
  · exact rotationsAux_length 4 base []

theorem offListOf_toFinset (s : Finset (Int × Int)) : (offListOf s).toFinset = s := by
  ext p
  rw [List.mem_toFinset]
  exact mem_offListOf s p

theorem offListOf_ne_nil (s : Finset (Int × Int)) (hs : s.Nonempty) :
    offListOf s ≠ [] := by
  obtain ⟨p, hp⟩ := hs
  exact List.ne_nil_of_mem ((mem_offListOf s p).mpr hp)

theorem finMin_normSet (s : Finset (Int × Int)) (hs : s.Nonempty) :
    finMinFst (normSet s) = 0 ∧ finMinSnd (normSet s) = 0 := by
  constructor
  · refine finMinFst_eq_of _ _ ?_ ?_
    · obtain ⟨p, hp, hval⟩ := finMinFst_mem s hs
      exact ⟨_, Finset.mem_image_of_mem _ hp, by simp [hval]⟩
    · intro q hq
      obtain ⟨p, hp, rfl⟩ := Finset.mem_image.mp hq
      have := finMinFst_le s p hp
      simp only
      omega
  · refine finMinSnd_eq_of _ _ ?_ ?_
    · obtain ⟨p, hp, hval⟩ := finMinSnd_mem s hs
      exact ⟨_, Finset.mem_image_of_mem _ hp, by simp [hval]⟩
    · intro q hq
      obtain ⟨p, hp, rfl⟩ := Finset.mem_image.mp hq
      have := finMinSnd_le s p hp
      simp only
      omega

theorem rotSet_iter_nonempty (k : Nat) (s : Finset (Int × Int)) (hs : s.Nonempty) :
    (rotSet^[k] s).Nonempty := by
  induction k generalizing s with
  | zero => exact hs
  | succ k ih =>
    rw [Function.iterate_succ_apply]
    exact ih _ (hs.image _)

theorem rotSet_iterate_four (s : Finset (Int × Int)) : rotSet^[4] s = s := by
  have h4 : rotSet^[4] s = rotSet (rotSet (rotSet (rotSet s))) := by
    rw [Function.iterate_succ_apply, Function.iterate_succ_apply,
      Function.iterate_succ_apply, Function.iterate_succ_apply,
      Function.iterate_zero_apply]
  rw [h4, rotSet_four]

theorem variant_char (base : List (Int × Int)) (hbase : base ≠ [])
    (v : Finset (Int × Int)) (hv : v ∈ _get_rotations base) :
    ∃ k < 4, v = normSet (rotSet^[k] base.toFinset) := by
  rcases rotationsAux_sound 4 base [] v hv with h | ⟨k, hk, hkeq⟩
  · cases h
  · refine ⟨k, hk, ?_⟩
    rw [hkeq, _normalize_eq_normSet _ (rotate90_iterate_ne_nil k base hbase),
      rotate90_iterate_toFinset]

theorem normSet_iter_mem (base : List (Int × Int)) (hbase : base ≠ []) (k : Nat)
    (hk : k < 4) : normSet (rotSet^[k] base.toFinset) ∈ _get_rotations base := by
  have := rotationsAux_contains 4 base [] k hk
  rw [_normalize_eq_normSet _ (rotate90_iterate_ne_nil k base hbase),
    rotate90_iterate_toFinset] at this
  exact this

/-- C9: for every non-empty base offset list, the rotation library
returns between 1 and 4 variants, all pairwise distinct as sets, each
normalised with minimum x and minimum y equal to 0, and closed under
rotation: rotating a returned variant by 90 degrees and normalising
again yields a set already in the list. -/
theorem claim_C9_rotations (base : List (Int × Int)) (hbase : base ≠ []) :
    (1 ≤ (_get_rotations base).length ∧ (_get_rotations base).length ≤ 4)
    ∧ (_get_rotations base).Nodup
    ∧ (∀ v ∈ _get_rotations base, finMinFst v = 0 ∧ finMinSnd v = 0)
    ∧ (∀ v ∈ _get_rotations base,
        _normalize (rotate90 (offListOf v)) ∈ _get_rotations base) := by
  have hFne : base.toFinset.Nonempty := (List.toFinset_nonempty_iff base).mpr hbase
  refine ⟨_get_rotations_length base, rotationsAux_nodup 4 base [] List.nodup_nil,
    ?_, ?_⟩
  · intro v hv
    obtain ⟨k, hk, rfl⟩ := variant_char base hbase v hv
    exact finMin_normSet _ (rotSet_iter_nonempty k _ hFne)
  · intro v hv
    obtain ⟨k, hk, rfl⟩ := variant_char base hbase v hv
    have hkne : (rotSet^[k] base.toFinset).Nonempty := rotSet_iter_nonempty k _ hFne
    have hvne : (normSet (rotSet^[k] base.toFinset)).Nonempty := hkne.image _
    have hrne : rotate90 (offListOf (normSet (rotSet^[k] base.toFinset))) ≠ [] :=
      rotate90_ne_nil _ (offListOf_ne_nil _ hvne)
    rw [_normalize_eq_normSet _ hrne, rotate90_toFinset, offListOf_toFinset,
      norm_rot_norm, ← Function.iterate_succ_apply' rotSet k]
    by_cases hk3 : k + 1 < 4
    · exact normSet_iter_mem base hbase (k + 1) hk3
    · have hk4 : k = 3 := by omega
      subst hk4
      show normSet (rotSet^[4] base.toFinset) ∈ _get_rotations base
      rw [rotSet_iterate_four]
      have h0 : base.toFinset = rotSet^[0] base.toFinset := rfl
      rw [h0]
      exact normSet_iter_mem base hbase 0 (by omega)

/-- Witness for C9 at the 2-cell line: its rotation list has between
one and four variants. -/
theorem claim_C9_witness :
    1 ≤ (_get_rotations [(0,0), (1,0)]).length ∧
    (_get_rotations [(0,0), (1,0)]).length ≤ 4 :=
  (claim_C9_rotations [(0,0), (1,0)] (by decide)).1

end Subs3D
